import Mathlib

/-!
# demultiplex_fastq: barcode classification, routing and output formatting

Shallow embedding of `src/demultiplex_fastq.c`.

* A C string is the list of its characters up to, not including, the
  terminating NUL.
* `FILENAME_MAX` comes from `<stdio.h>` and is a parameter (`fmax`).
* A `FILE *` opened for appending is the pair of its name and the text
  appended so far; a `NULL` handle is `none`.
* A null-pointer dereference, an overflow of a `FILENAME_MAX` buffer or a use
  of freed memory is a fault: the function returns `none`, the run is
  `aborted`.
-/

namespace Demultiplex

/-- A C string: the bytes before the terminating NUL. -/
abbrev CStr := List Char

/-! ## libc -/

/-- libc `strnlen(s, maxlen)`. -/
def strnlen (s : CStr) (maxlen : Nat) : Nat :=
  min s.length maxlen

/-- libc `strncmp(s1, s2, n)`: compares at most `n` bytes, as unsigned
bytes, and stops at the first difference or at the terminator of both
strings. The C standard fixes only the sign of the result: it is -1, 0 or 1
here. With `n = 0` no byte of either argument is read. -/
def strncmp : CStr → CStr → Nat → Int
  | _, _, 0 => 0
  | [], [], _ + 1 => 0
  | [], _ :: _, _ + 1 => -1
  | _ :: _, [], _ + 1 => 1
  | a :: s1, b :: s2, n + 1 =>
    if a = b then strncmp s1 s2 n else if a.toNat < b.toNat then -1 else 1

/-- Number of byte positions of the first argument that `strncmp` inspects,
the terminator (position `s1.length`) included when it is reached. -/
def strncmp_reads : CStr → CStr → Nat → Nat
  | _, _, 0 => 0
  | [], _, _ + 1 => 1
  | _ :: _, [], _ + 1 => 1
  | a :: s1, b :: s2, n + 1 =>
    if a = b then 1 + strncmp_reads s1 s2 n else 1

/-- libc `strncpy(dst, src, n)` into a zero-filled buffer: the first `n`
bytes of `src`. -/
def strncpy (src : CStr) (n : Nat) : CStr :=
  src.take n

/-- libc `strncat(dst, src, n)`: appends at most `n` bytes of `src`. -/
def strncat (dst src : CStr) (n : Nat) : CStr :=
  dst ++ src.take n

/-! ## kseq records -/

/-- The fields of `kseq_t` the program reads. A `kstring_t` is its text; its
length field `l` is the length of the text, so `comment.l == 0` (no comment)
is `comment = []`, and likewise for `qual`. -/
structure kseq_t where
  name : CStr
  comment : CStr
  seq : CStr
  qual : CStr
  deriving DecidableEq, Repr

/-- Modelled from the spec: `kseq_read` of the record source (kseq.h), "a
lazy, forward-only" parser that "yields one structured record at a time". A
stream is the list of the records left in it; the call succeeds (returns a
non-negative value) exactly when a record is left. -/
def kseq_read : List kseq_t → Option (kseq_t × List kseq_t)
  | [] => none
  | r :: rest => some (r, rest)

/-! ## print_indexed_seq (lines 107-126) -/

/-- Source `print_indexed_seq(fout1, seq1, seqi, seqj)`: `fout1` is the text
already in the file, the result is the text after the three `fprintf`s. -/
def print_indexed_seq (fout1 : CStr) (seq1 seqi : kseq_t) (seqj : Option kseq_t) : CStr :=
  let fout1 :=
    if seq1.comment.length ≠ 0 then
      match seqj with
      | some sj =>
        fout1 ++ "@".toList ++ seq1.name ++ " ".toList ++ seq1.comment ++ " ".toList
          ++ seqi.seq ++ ":".toList ++ sj.seq ++ "\n".toList
      | none =>
        fout1 ++ "@".toList ++ seq1.name ++ " ".toList ++ seq1.comment ++ " ".toList
          ++ seqi.seq ++ "\n".toList
    else
      match seqj with
      | some sj =>
        fout1 ++ "@".toList ++ seq1.name ++ " ".toList ++ seqi.seq ++ ":".toList ++ sj.seq
          ++ "\n".toList
      | none =>
        fout1 ++ "@".toList ++ seq1.name ++ " ".toList ++ seqi.seq ++ "\n".toList
  let fout1 := fout1 ++ seq1.seq ++ "\n".toList
  if seq1.qual.length ≠ 0 then
    fout1 ++ "+\n".toList ++ seq1.qual ++ "\n".toList
  else
    fout1 ++ "+\n\n".toList

/-! ## The barcode table (lines 227-238, 279-303) -/

/-- Row `i` of the parallel arrays `barcodes[i]`, `barcodesj[i]`; `barcodej`
is `none` when `barcodesj[i]` is `NULL` (the entry has no `:` part). -/
structure Barcode where
  barcode : CStr
  barcodej : Option CStr
  deriving DecidableEq, Repr

/-- Source `barcode_len[i] = strnlen(barcodes[i], FILENAME_MAX)` (line 293). -/
def barcode_len (fmax : Nat) (e : Barcode) : Nat :=
  strnlen e.barcode fmax

/-- Source `barcodej_len[i]`: set at line 300 when `barcodesj[i]` is not
`NULL`, otherwise the 0 left by `calloc`. -/
def barcodej_len (fmax : Nat) (e : Barcode) : Nat :=
  match e.barcodej with
  | some k => strnlen k fmax
  | none => 0

/-- The pseudobarcode `"OTHER"` written at the last entry (lines 288-289). -/
def OTHER : Barcode :=
  { barcode := "OTHER".toList, barcodej := some "OTHER".toList }

/-- Lines 286-290: the table the loops at lines 291, 369 and 376 run over,
which end at the first `NULL` of `barcodes`. Without `--no_other` the slot
after the configured barcodes holds the pseudobarcode. -/
def main_table (no_other : Bool) (barcodes : List Barcode) : List Barcode :=
  if !no_other then barcodes ++ [OTHER] else barcodes

/-! ## Classification (lines 367-386) -/

/-- The loop shape shared by lines 369-374 and 376-378:
`for (i = 0; barcodes[i] != NULL; i++) if (test) break;`, started at index
`i`; the result is the value of `i` after the loop. -/
def main_scan (test : Barcode → Bool) : List Barcode → Nat → Nat
  | [], i => i
  | e :: rest, i => if test e then i else main_scan test rest (i + 1)

/-- The test of line 377, used when `fastqj` is not given. -/
def main_test1 (fmax : Nat) (seqi : kseq_t) (e : Barcode) : Bool :=
  strncmp seqi.seq e.barcode (barcode_len fmax e) == 0

/-- The test of lines 371-372, used when `fastqj` is given. For an entry
without a second key `barcodesj[i]` is `NULL` and `barcodej_len[i]` is 0, so
the second `strncmp` reads nothing and returns 0. -/
def main_test2 (fmax : Nat) (seqi seqj : kseq_t) (e : Barcode) : Bool :=
  strncmp seqi.seq e.barcode (barcode_len fmax e) == 0 &&
    strncmp seqj.seq (e.barcodej.getD []) (barcodej_len fmax e) == 0

/-- Lines 367-378: the value of `i` after the classification loop. `seqj` is
`some` exactly when `fastqj` is given. -/
def main_find (fmax : Nat) (table : List Barcode) (seqi : kseq_t) (seqj : Option kseq_t) : Nat :=
  match seqj with
  | some sj => main_scan (main_test2 fmax seqi sj) table 0
  | none => main_scan (main_test1 fmax seqi) table 0

/-- Lines 367-386: the index of the destination the tuple is written to, or
`none` for the `continue` of line 385. `barcodes[i] == NULL` is
`i = table.length`. -/
def main_classify (fmax : Nat) (no_other : Bool) (table : List Barcode) (seqi : kseq_t)
    (seqj : Option kseq_t) : Option Nat :=
  let i := main_find fmax table seqi seqj
  if i = table.length then
    if no_other = false then some (i - 1) else none
  else some i

/-! ## Output destinations -/

/-- A `FILE *` opened with mode `"a"`: its name and the text appended to it
by this run. -/
structure FILE where
  name : CStr
  text : CStr
  deriving DecidableEq, Repr

/-- The state the processing loop changes: the two arrays of destinations
(`none` is a `NULL` handle) and the name-mismatch diagnostics the loop writes
to standard error (the usage text and the `perror` messages of startup are
not recorded). -/
structure Outputs where
  barcode_files1 : List (Option FILE)
  barcode_files2 : List (Option FILE)
  stderr : CStr
  deriving DecidableEq, Repr

/-- Lines 388-389 and 392-393: `fout = files[i]; print_indexed_seq(fout, seq,
seqi, seqj);`. Writing through a `NULL` handle is a fault. -/
def main_print (files : List (Option FILE)) (i : Nat) (seq seqi : kseq_t)
    (seqj : Option kseq_t) : Option (List (Option FILE)) :=
  match files.get? i with
  | some (some fout) =>
    some (files.set i (some { fout with text := print_indexed_seq fout.text seq seqi seqj }))
  | _ => none

/-- Lines 388-394: the writes for a tuple classified to index `i`. `seq2` is
`some` exactly when `fastq2` is given. -/
def main_write (o : Outputs) (i : Nat) (seq1 seqi : kseq_t) (seq2 seqj : Option kseq_t) :
    Option Outputs :=
  match main_print o.barcode_files1 i seq1 seqi seqj with
  | none => none
  | some files1 =>
    match seq2 with
    | none => some { o with barcode_files1 := files1 }
    | some s2 =>
      match main_print o.barcode_files2 i s2 seqi seqj with
      | none => none
      | some files2 => some { o with barcode_files1 := files1, barcode_files2 := files2 }

/-- Lines 367-394: classify one tuple and write it; the `continue` of line
385 leaves the outputs as they are. -/
def main_route (fmax : Nat) (no_other : Bool) (table : List Barcode) (o : Outputs)
    (seq1 seqi : kseq_t) (seq2 seqj : Option kseq_t) : Option Outputs :=
  match main_classify fmax no_other table seqi seqj with
  | none => some o
  | some i => main_write o i seq1 seqi seq2 seqj

/-! ## The identifier check (lines 357-365) -/

/-- The condition of lines 357-358. `fq2` is not `NULL` exactly when `seq2`
is `some`. -/
def main_name_mismatch (seq1 seqi : kseq_t) (seq2 : Option kseq_t) : Bool :=
  strncmp seq1.name seqi.name 200 != 0 ||
    (match seq2 with
     | some s2 => strncmp seq1.name s2.name 200 != 0
     | none => false)

/-- Lines 357-365: the text on standard error after the check. On a mismatch
line 363 reads `seq2->name.s`; `seq2` is `NULL` when `fastq2` is not given
(line 140), and the read is then a fault. -/
def main_check_names (stderr : CStr) (seq1 seqi : kseq_t) (seq2 : Option kseq_t) :
    Option CStr :=
  if main_name_mismatch seq1 seqi seq2 then
    match seq2 with
    | none => none
    | some s2 =>
      some (stderr ++ "name mismatch:\n".toList
        ++ "seq 1 name: ".toList ++ seq1.name ++ "\n".toList
        ++ "seq 2 name: ".toList ++ s2.name ++ "\n".toList
        ++ "index 1 name: ".toList ++ seqi.name ++ "\n".toList)
  else some stderr

/-- Lines 356-394: the body of the processing loop for one tuple. -/
def main_body (fmax : Nat) (no_other : Bool) (table : List Barcode) (o : Outputs)
    (seq1 seqi : kseq_t) (seq2 seqj : Option kseq_t) : Option Outputs :=
  match main_check_names o.stderr seq1 seqi seq2 with
  | none => none
  | some err => main_route fmax no_other table { o with stderr := err } seq1 seqi seq2 seqj

/-! ## The lock-step loop (lines 349-395) -/

/-- Lines 352-355: `if (fastq && !(kseq_read(seq) >= 0)) break;` for an
optional stream (`none` when the file is not given). The result is `none`
for the `break`, otherwise the record now in `seq` (if any) and the stream
after the read. -/
def main_read_optional :
    Option (List kseq_t) → Option (Option kseq_t × Option (List kseq_t))
  | none => some (none, none)
  | some s =>
    match kseq_read s with
    | none => none
    | some (r, rest) => some (some r, some rest)

/-- Lines 349-395: the processing loop over the four streams, from the
outputs `o`. The result is the outputs when the loop ends, or `none` when an
iteration faults. -/
def main_loop (fmax : Nat) (no_other : Bool) (table : List Barcode) :
    List kseq_t → List kseq_t → Option (List kseq_t) → Option (List kseq_t) → Outputs →
      Option Outputs
  | [], _, _, _, o => some o
  | _ :: _, [], _, _, o => some o
  | seq1 :: fq1, seqi :: fqi, fq2, fqj, o =>
    match main_read_optional fq2 with
    | none => some o
    | some (seq2, fq2) =>
      match main_read_optional fqj with
      | none => some o
      | some (seqj, fqj) =>
        match main_body fmax no_other table o seq1 seqi seq2 seqj with
        | none => none
        | some o => main_loop fmax no_other table fq1 fqi fq2 fqj o

/-! ## Output file names and startup (lines 91-105, 275-325) -/

/-- GNU `basename(path)` from `<string.h>`: the part after the last `/`. -/
def basename (path : CStr) : CStr :=
  (path.reverse.takeWhile (fun c => c != '/')).reverse

/-- libc `strrchr(name, c)` as an offset: the index of the last `c` in
`name`, or `none` for `NULL`. -/
def strrchr (name : CStr) (c : Char) : Option Nat :=
  if c ∈ name then some (name.length - 1 - (name.reverse.takeWhile (fun d => d != c)).length)
  else none

/-- libc `strcmp(s1, s2) != 0`. -/
def strcmp_ne (s1 s2 : CStr) : Bool :=
  s1 != s2

/-- Source `prefix(path)` (lines 91-105), with the recursion depth bounded by
`fuel`. `*suffix = 0` cuts `name` at the offset of the last dot. -/
def prefix_fuel (fmax : Nat) : Nat → CStr → CStr
  | 0, path => basename (path.take fmax)
  | fuel + 1, path =>
    let name := basename (path.take fmax)
    match strrchr name '.' with
    | some k =>
      let suffix := name.drop k
      if strcmp_ne suffix "gz".toList then
        prefix_fuel fmax fuel (name.take k)
      else name.take k
    | none => name

/-- Source `prefix(path)`: every recursive call is on a string at least one
byte shorter, so `path.length` levels of recursion suffice. -/
def prefix_path (fmax : Nat) (path : CStr) : CStr :=
  prefix_fuel fmax path.length path

/-- Lines 294-304 (and 314-322): the file name built in the `FILENAME_MAX`
buffer from an output prefix and a table entry. The buffer holds
`FILENAME_MAX - 1` bytes and the terminator; a longer name overruns it, which
is a fault. -/
def main_filename (fmax : Nat) (prefix_out : CStr) (e : Barcode) : Option CStr :=
  let filename := strncpy prefix_out fmax
  let filename := strncat filename "_".toList fmax
  let filename := strncat filename e.barcode fmax
  let filename :=
    match e.barcodej with
    | some k => strncat (strncat filename ":".toList fmax) k fmax
    | none => filename
  let filename := strncat filename ".fastq".toList fmax
  if filename.length < fmax then some filename else none

/-- How startup ends when it does not reach the processing loop. -/
inductive Startup where
  | fault
  | exit_failure (barcode_files1 barcode_files2 : List (Option FILE))
  deriving DecidableEq, Repr

/-- Lines 291-325: open the destinations of every table entry. `fopen` tells
whether `fopen(name, "a")` succeeds. A set-1 failure ends the run with
`exit(1)` (lines 306-310); the result of the set-2 `fopen` is stored
unchecked (line 323). The result lists the handles in table order. -/
def main_open (fmax : Nat) (fopen : CStr → Bool) (prefix_out : CStr) (fastq2 : Bool)
    (prefix_out2 : Option CStr) :
    List Barcode → Except Startup (List (Option FILE) × List (Option FILE))
  | [] => .ok ([], [])
  | e :: rest =>
    match main_filename fmax prefix_out e with
    | none => .error .fault
    | some filename1 =>
      if !fopen filename1 then .error (.exit_failure [] [])
      else
        let file1 : Option FILE := some { name := filename1, text := [] }
        let file2 : Option (Option FILE) :=
          if fastq2 then
            match prefix_out2 with
            | none => none
            | some p2 =>
              match main_filename fmax p2 e with
              | none => none
              | some filename2 =>
                some (if fopen filename2 then some { name := filename2, text := [] } else none)
          else some none
        match file2 with
        | none => .error .fault
        | some file2 =>
          match main_open fmax fopen prefix_out fastq2 prefix_out2 rest with
          | .ok (files1, files2) => .ok (file1 :: files1, file2 :: files2)
          | .error .fault => .error .fault
          | .error (.exit_failure files1 files2) =>
            .error (.exit_failure (file1 :: files1) (file2 :: files2))

/-! ## main (lines 131-407) -/

/-- The variables set by the option loop (lines 158-249): the file names, the
barcode table parsed from `-b`, the `--no_other` flag and the values of
`-p` and `-q`. -/
structure Config where
  fastq1 : Option CStr
  fastq2 : Option CStr
  fastqi : Option CStr
  fastqj : Option CStr
  barcodes : Option (List Barcode)
  no_other : Bool
  prefix_out : Option CStr
  prefix_out2 : Option CStr

/-- The environment of a run: `FILENAME_MAX`, the records of each readable
input file (`none` when `gzopen` fails) and whether an output file can be
opened for appending. -/
structure Env where
  FILENAME_MAX : Nat
  gzopen : CStr → Option (List kseq_t)
  fopen : CStr → Bool

/-- How a run ends: `return`/`exit` with a status and the destinations it
opened, or abnormally after a fault (the `abort()` of the signal handler, or
of the allocator on freed memory). -/
inductive Outcome where
  | exited (status : Nat) (out : Outputs)
  | aborted
  deriving DecidableEq, Repr

/-- Lines 327-339: the records `kseq_read` will deliver for an input file. A
file that is not given or cannot be opened delivers none. -/
def main_stream (env : Env) (fastq : Option CStr) : List kseq_t :=
  match fastq with
  | none => []
  | some path => (env.gzopen path).getD []

/-- Lines 397-405: the cleanup after the loop, given the handles `fq1` and
`fq2` (`none` for a null pointer: the file is not given or `gzopen`
failed). Line 399 closes `fq1`; when `fq2` is not null, line 404 closes
`fq1` again. `gzclose` of a null pointer only returns an error, but the
second `gzclose` of an opened `fq1` works on freed memory, which is a fault.
The result tells whether the cleanup reaches `return 0`. -/
def main_cleanup (fq1 fq2 : Option (List kseq_t)) : Bool :=
  match fq2 with
  | none => true
  | some _ =>
    match fq1 with
    | none => true
    | some _ => false

/-- Source `main`, after the option loop (lines 261-406). -/
def main (env : Env) (cfg : Config) : Outcome :=
  match cfg.fastq1, cfg.barcodes with
  | some fastq1, some barcodes =>
    let prefix_out := prefix_path env.FILENAME_MAX fastq1
    let prefix_out2 :=
      match cfg.fastq2 with
      | some fastq2 => some (prefix_path env.FILENAME_MAX fastq2)
      | none => cfg.prefix_out2
    let table := main_table cfg.no_other barcodes
    match main_open env.FILENAME_MAX env.fopen prefix_out cfg.fastq2.isSome prefix_out2 table with
    | .error .fault => .aborted
    | .error (.exit_failure files1 files2) =>
      .exited 1 { barcode_files1 := files1, barcode_files2 := files2, stderr := [] }
    | .ok (files1, files2) =>
      let fq1 := main_stream env (some fastq1)
      let fqi := main_stream env cfg.fastqi
      let fq2 := cfg.fastq2.map (fun p => main_stream env (some p))
      let fqj := cfg.fastqj.map (fun p => main_stream env (some p))
      match main_loop env.FILENAME_MAX cfg.no_other table fq1 fqi fq2 fqj
          { barcode_files1 := files1, barcode_files2 := files2, stderr := [] } with
      | none => .aborted
      | some o =>
        if main_cleanup (env.gzopen fastq1) (cfg.fastq2.bind env.gzopen) then .exited 0 o
        else .aborted
  | _, _ => .exited 1 { barcode_files1 := [], barcode_files2 := [], stderr := [] }

/-! ## The loop as reader and router -/

/-- The records of one iteration: `seq1`, `seqi`, and `seq2`, `seqj` when
their streams are given. -/
structure Tuple where
  seq1 : kseq_t
  seqi : kseq_t
  seq2 : Option kseq_t
  seqj : Option kseq_t
  deriving DecidableEq, Repr

/-- Lines 349-355 alone: the tuples for which the loop reaches line 356,
in order, when no iteration faults. -/
def main_tuples :
    List kseq_t → List kseq_t → Option (List kseq_t) → Option (List kseq_t) → List Tuple
  | [], _, _, _ => []
  | _ :: _, [], _, _ => []
  | seq1 :: fq1, seqi :: fqi, fq2, fqj =>
    match main_read_optional fq2 with
    | none => []
    | some (seq2, fq2) =>
      match main_read_optional fqj with
      | none => []
      | some (seqj, fqj) =>
        { seq1 := seq1, seqi := seqi, seq2 := seq2, seqj := seqj }
          :: main_tuples fq1 fqi fq2 fqj

/-- Lines 356-394 run on each tuple of a list in turn, stopping at a fault. -/
def main_bodies (fmax : Nat) (no_other : Bool) (table : List Barcode) :
    List Tuple → Outputs → Option Outputs
  | [], o => some o
  | t :: ts, o =>
    match main_body fmax no_other table o t.seq1 t.seqi t.seq2 t.seqj with
    | none => none
    | some o => main_bodies fmax no_other table ts o

/-! ## The specification's words -/

/-- The spec's matching predicate (4.2, steps 2 and 3): `key1` is a prefix of
`index1.sequence` and, if index2 is configured, `key2` is a prefix of
`index2.sequence`. An entry without `key2` puts no condition on index2. -/
def spec_matches (e : Barcode) (seqi : kseq_t) (seqj : Option kseq_t) : Prop :=
  e.barcode <+: seqi.seq ∧
    ∀ sj key2, seqj = some sj → e.barcodej = some key2 → key2 <+: sj.seq

/-- The spec's output file name (4.3): prefix + `_` + key1 + (`:` + key2 if
present) + `.fastq`. -/
def spec_filename (pre : CStr) (e : Barcode) : CStr :=
  pre ++ "_".toList ++ e.barcode ++
    (match e.barcodej with
     | some key2 => ":".toList ++ key2
     | none => []) ++ ".fastq".toList

/-- The spec's record text (4.2, output formatting): header line, sequence
line, separator line, quality line. -/
def spec_record (seq1 seqi : kseq_t) (seqj : Option kseq_t) : CStr :=
  "@".toList ++ seq1.name ++ (if seq1.comment = [] then [] else " ".toList ++ seq1.comment)
    ++ " ".toList ++ seqi.seq
    ++ (match seqj with
        | some sj => ":".toList ++ sj.seq
        | none => []) ++ "\n".toList
    ++ seq1.seq ++ "\n".toList
    ++ "+".toList ++ "\n".toList
    ++ (if seq1.qual = [] then [] else seq1.qual) ++ "\n".toList

/-- The keys of an entry are no longer than `FILENAME_MAX`, so that
`barcode_len` and `barcodej_len` are their full lengths. -/
def key_fits (fmax : Nat) (e : Barcode) : Prop :=
  e.barcode.length ≤ fmax ∧ ∀ key2, e.barcodej = some key2 → key2.length ≤ fmax

/-! ## Auxiliary definitions for the statements -/

/-- The test the classification loop applies to an entry: that of lines
371-372 when `fastqj` is given, otherwise that of line 377. -/
def main_test (fmax : Nat) (seqi : kseq_t) (seqj : Option kseq_t) (e : Barcode) : Bool :=
  match seqj with
  | some sj => main_test2 fmax seqi sj e
  | none => main_test1 fmax seqi e

/-! ## Concrete scenarios -/

/-- Scenarios A and B: the primary1 record `R1`, `ACGT`, `####`. -/
def scenario_seq1 : kseq_t :=
  { name := "R1".toList, comment := [], seq := "ACGT".toList, qual := "####".toList }

/-- Scenarios A and B: the index1 record `R1`, `AAAACGT`. -/
def scenario_seqi : kseq_t :=
  { name := "R1".toList, comment := [], seq := "AAAACGT".toList, qual := "#######".toList }

/-- Scenarios A and B: `FILENAME_MAX` 4096, primary1 file `sample.fastq.gz`
with the one record, index1 file `index.fastq.gz` with the one record, every
output file can be opened. -/
def scenario_env : Env :=
  { FILENAME_MAX := 4096
    gzopen := fun path =>
      if path = "sample.fastq.gz".toList then some [scenario_seq1]
      else if path = "index.fastq.gz".toList then some [scenario_seqi]
      else none
    fopen := fun _ => true }

/-- Scenarios A and B: `--r1 sample.fastq.gz --i1 index.fastq.gz -n -b key`. -/
def scenario_cfg (key : CStr) : Config :=
  { fastq1 := some "sample.fastq.gz".toList
    fastq2 := none
    fastqi := some "index.fastq.gz".toList
    fastqj := none
    barcodes := some [{ barcode := key, barcodej := none }]
    no_other := true
    prefix_out := none
    prefix_out2 := none }

/-- A table with overlapping keys: `GGGG`, `AAAA`, `AAAAC`. -/
def scenario_overlap : List Barcode :=
  [{ barcode := "GGGG".toList, barcodej := none },
   { barcode := "AAAA".toList, barcodej := none },
   { barcode := "AAAAC".toList, barcodej := none }]

/-- Four open, empty set-1 destinations and no set-2 destinations. -/
def scenario_outputs : Outputs :=
  { barcode_files1 :=
      [some { name := "s_GGGG.fastq".toList, text := [] },
       some { name := "s_AAAA.fastq".toList, text := [] },
       some { name := "s_AAAAC.fastq".toList, text := [] },
       some { name := "s_OTHER:OTHER.fastq".toList, text := [] }]
    barcode_files2 := [none, none, none, none]
    stderr := [] }

/-- The `k`-th record of an optional stream corresponds to the field `seq` of
a tuple: both absent when the stream is not configured, otherwise `seq` is
that record. -/
def stream_record_at (k : Nat) (seq : Option kseq_t) : Option (List kseq_t) → Prop
  | none => seq = none
  | some fq => ∃ r, fq[k]? = some r ∧ seq = some r

/-- An input in which the identifiers of primary1 and index1 differ and no
second primary stream is given: `sample.fastq.gz` holds `R1`, the index file
holds `R2`. -/
def scenario_mismatch_env : Env :=
  { scenario_env with
    gzopen := fun path =>
      if path = "sample.fastq.gz".toList then some [scenario_seq1, scenario_seq1]
      else if path = "index.fastq.gz".toList then
        some [{ scenario_seqi with name := "R2".toList }, scenario_seqi]
      else none }

/-- An environment in which no input file can be opened (`gzopen` fails for
every path) while every output file can. -/
def scenario_unreadable_env : Env :=
  { scenario_env with gzopen := fun _ => none }

/-- An environment with a second primary file `mate.fastq.gz` holding one
record, in which the set-2 output files `mate_GGGG.fastq` and
`mate_AAAA.fastq` cannot be opened. -/
def scenario_set2_env : Env :=
  { FILENAME_MAX := 4096
    gzopen := fun path =>
      if path = "sample.fastq.gz".toList then some [scenario_seq1]
      else if path = "index.fastq.gz".toList then some [scenario_seqi]
      else if path = "mate.fastq.gz".toList then some [scenario_seq1]
      else none
    fopen := fun name =>
      name != "mate_GGGG.fastq".toList && name != "mate_AAAA.fastq".toList }

/-- An environment in which the set-1 output file `sample_AAAA.fastq` cannot
be opened. -/
def scenario_set1_env : Env :=
  { scenario_env with fopen := fun name => name != "sample_AAAA.fastq".toList }

/-! ## str_split (lines 45-89) -/

/-- Lines 55-63: the first loop of `str_split` from offset `pos` of `a_str`,
with the current values of `count` and `last_comma` (an offset into `a_str`,
`none` for the null pointer); the result is their values after the loop. -/
def str_split_scan (a_delim : Char) : CStr → Nat → Nat → Option Nat → Nat × Option Nat
  | [], _, count, last_comma => (count, last_comma)
  | c :: tmp, pos, count, last_comma =>
    if a_delim = c then str_split_scan a_delim tmp (pos + 1) (count + 1) (some pos)
    else str_split_scan a_delim tmp (pos + 1) count last_comma

/-- Line 65: the value of `last_comma < (a_str + strlen(a_str) - 1)`. The
null pointer is below every address in the string. -/
def str_split_tail (a_str : CStr) (last_comma : Option Nat) : Nat :=
  match last_comma with
  | none => 1
  | some k => if k + 1 < a_str.length then 1 else 0

/-- libc `strtok` with a one-character delimiter set: the tokens returned by
the first call on the string and the calls with a null pointer after it, in
order. A token is a maximal run of bytes other than the delimiter; `token`
holds the bytes of the run being read. -/
def strtok_tokens (delim : Char) : CStr → CStr → List CStr
  | [], token => if token = [] then [] else [token]
  | c :: rest, token =>
    if c = delim then
      if token = [] then strtok_tokens delim rest []
      else token :: strtok_tokens delim rest []
    else strtok_tokens delim rest (token ++ [c])

/-- libc `strndup(s, n)`: a copy of at most `n` bytes of `s`. -/
def strndup (s : CStr) (n : Nat) : CStr :=
  s.take n

/-- Lines 78-83: the `while (token)` loop from index `idx`; the result is the
strings stored at `result[idx]`, `result[idx + 1]`, ..., or `none` when
`assert(idx < count)` fails. -/
def str_split_fill (fmax count : Nat) : List CStr → Nat → Option (List CStr)
  | [], _ => some []
  | token :: rest, idx =>
    if idx < count then
      match str_split_fill fmax count rest (idx + 1) with
      | some result => some (strndup token fmax :: result)
      | none => none
    else none

/-- Source `str_split(a_str, a_delim, &count_res)` (lines 45-89), `calloc`
succeeding: the array returned (all `count + 1` slots, `none` for a null
pointer) and the value stored in `count_res`; `none` when an assertion
fails. -/
def str_split (fmax : Nat) (a_str : CStr) (a_delim : Char) :
    Option (List (Option CStr) × Nat) :=
  match str_split_scan a_delim a_str 0 0 none with
  | (count, last_comma) =>
    let count := count + str_split_tail a_str last_comma
    let count_res := count
    let count := count + 1
    match str_split_fill fmax count (strtok_tokens a_delim a_str []) 0 with
    | none => none
    | some result =>
      if result.length = count - 1 then
        some (result.map some ++ List.replicate (count + 1 - result.length) none, count_res)
      else none

/-- The string made of the given fields separated by single occurrences of
the delimiter. -/
def join_fields (delim : Char) : List CStr → CStr
  | [] => []
  | [field] => field
  | field :: next :: rest => field ++ delim :: join_fields delim (next :: rest)

/-- Fields as the claim on `str_split` takes them: at least one, each not
empty and free of the delimiter. -/
def well_formed_fields (delim : Char) (fields : List CStr) : Prop :=
  fields ≠ [] ∧ ∀ field ∈ fields, field ≠ [] ∧ delim ∉ field

/-! ## Reading a written record back -/

/-- The pieces of a text between the occurrences of the character `c` (one
piece more than there are occurrences). -/
def split_at (c : Char) : CStr → List CStr
  | [] => [[]]
  | x :: xs =>
    if x = c then [] :: split_at c xs
    else
      match split_at c xs with
      | [] => [[x]]
      | piece :: pieces => (x :: piece) :: pieces

/-- The lines of a text in which every line ends with a newline: the pieces
between the newlines, without the empty piece after the last newline. -/
def text_lines (text : CStr) : List CStr :=
  (split_at '\n' text).dropLast

/-- What a header line recovers: the identifier, the comment if there is one
and the index sequence(s). -/
structure Header where
  name : CStr
  comment : Option CStr
  index1 : CStr
  index2 : Option CStr
  deriving DecidableEq, Repr

/-- The spec's reading of a header line (8, round trip): `@`, the identifier
up to the first space, the index sequence(s) after the last space (index2
after a `:`), and the comment between the two when there is anything
between them. -/
def parse_header (line : CStr) : Option Header :=
  match line with
  | '@' :: rest =>
    let name := rest.takeWhile (fun c => c != ' ')
    let tail := (rest.dropWhile (fun c => c != ' ')).drop 1
    let index := (tail.reverse.takeWhile (fun c => c != ' ')).reverse
    let comment :=
      if index.length < tail.length then some (tail.take (tail.length - index.length - 1))
      else none
    match split_at ':' index with
    | [index1] => some { name := name, comment := comment, index1 := index1, index2 := none }
    | [index1, index2] =>
      some { name := name, comment := comment, index1 := index1, index2 := some index2 }
    | _ => none
  | _ => none

/-- The header the spec expects back from a written record. -/
def spec_header (seq1 seqi : kseq_t) (seqj : Option kseq_t) : Header :=
  { name := seq1.name
    comment := if seq1.comment = [] then none else some seq1.comment
    index1 := seqi.seq
    index2 := seqj.map (fun sj => sj.seq) }

/-- The conditions of the round trip on an index sequence: no newline, no
space and no `:`. -/
def index_clean (seq : CStr) : Prop :=
  '\n' ∉ seq ∧ ' ' ∉ seq ∧ ':' ∉ seq

/-- The index part of a written header: index1, and index2 after `:` when
index2 is present. -/
def written_index (seqi : kseq_t) (seqj : Option kseq_t) : CStr :=
  seqi.seq ++
    (match seqj with
     | some sj => ':' :: sj.seq
     | none => [])

/-- The header line `print_indexed_seq` writes, without its newline. -/
def written_header (seq1 seqi : kseq_t) (seqj : Option kseq_t) : CStr :=
  '@' :: (seq1.name ++ (if seq1.comment = [] then [] else ' ' :: seq1.comment)
    ++ ' ' :: written_index seqi seqj)

/-! ## What the loop leaves in each destination -/

/-- The record written to destination set 1 for a tuple. -/
def record1 (t : Tuple) : CStr :=
  spec_record t.seq1 t.seqi t.seqj

/-- The record written to destination set 2 for a tuple: that of its
primary2 record, nothing when there is no second primary stream. -/
def record2 (t : Tuple) : CStr :=
  match t.seq2 with
  | some s2 => spec_record s2 t.seqi t.seqj
  | none => []

/-- The tuples of a list that are classified to destination index `i`, in
their order in the list. -/
def routed_to (fmax : Nat) (no_other : Bool) (table : List Barcode) (i : Nat)
    (ts : List Tuple) : List Tuple :=
  ts.filter (fun t => main_classify fmax no_other table t.seqi t.seqj == some i)

/-- The texts of a list one after the other. -/
def concat_texts : List CStr → CStr
  | [] => []
  | text :: texts => text ++ concat_texts texts

/-- A handle after `txt` has been appended through it (a null handle stays
null). -/
def append_text (txt : CStr) (file : Option FILE) : Option FILE :=
  match file with
  | some f => some { f with text := f.text ++ txt }
  | none => none

/-- Every destination of the first `n` of an array of handles is open. -/
def all_open (n : Nat) (files : List (Option FILE)) : Prop :=
  ∀ i, i < n → ∃ f, files[i]? = some (some f)

/-- Four open, empty destinations in each set. -/
def scenario_outputs2 : Outputs :=
  { scenario_outputs with
    barcode_files2 :=
      [some { name := "m_GGGG.fastq".toList, text := [] },
       some { name := "m_AAAA.fastq".toList, text := [] },
       some { name := "m_AAAAC.fastq".toList, text := [] },
       some { name := "m_OTHER:OTHER.fastq".toList, text := [] }] }

/-- Three index1 records: `AAAACGT`, `TTTTCGT`, `AAAATTT`. -/
def scenario_indexes : List kseq_t :=
  [scenario_seqi, { scenario_seqi with seq := "TTTTCGT".toList },
   { scenario_seqi with seq := "AAAATTT".toList }]

/-- Three primary records `R1` with sequences `ACGT`, `CCCC`, `GGGG`. -/
def scenario_reads : List kseq_t :=
  [scenario_seq1, { scenario_seq1 with seq := "CCCC".toList },
   { scenario_seq1 with seq := "GGGG".toList }]

/-- Three mate records `R1` with sequences `TGCA`, `TTTT`, `AAAA`. -/
def scenario_mates : List kseq_t :=
  [{ scenario_seq1 with seq := "TGCA".toList }, { scenario_seq1 with seq := "TTTT".toList },
   { scenario_seq1 with seq := "AAAA".toList }]

/-! ## The `-b` option (lines 225-238) -/

/-- Lines 231-237: a token of the `-b` argument cut at its first `:`
(`strchr`); the part after the `:` becomes `barcodesj[i]`. -/
def main_split_key (barcode : CStr) : Barcode :=
  if ':' ∈ barcode then
    { barcode := barcode.takeWhile (fun c => c != ':')
      barcodej := some ((barcode.dropWhile (fun c => c != ':')).drop 1) }
  else { barcode := barcode, barcodej := none }

/-- Lines 227-238: the table built from the argument of `-b`: the strings of
the array returned by `str_split` up to its first null pointer, each cut at
its first `:`; `none` when an assertion of `str_split` fails. -/
def main_barcodes (fmax : Nat) (optarg : CStr) : Option (List Barcode) :=
  match str_split fmax optarg ',' with
  | none => none
  | some (barcodes, _) =>
    some (((barcodes.takeWhile (fun b => b.isSome)).filterMap id).map main_split_key)

/-! ## Lemmas -/

theorem strncmp_eq_zero_iff (s k : CStr) (n : Nat) :
    strncmp s k n = 0 ↔ s.take n = k.take n := by
  induction n generalizing s k with
  | zero => simp [strncmp]
  | succ n ih =>
    cases s with
    | nil => cases k <;> simp [strncmp]
    | cons a s =>
      cases k with
      | nil => simp [strncmp]
      | cons b k =>
        by_cases hab : a = b
        · simp [strncmp, hab, ih]
        · by_cases hlt : a.toNat < b.toNat <;> simp [strncmp, hab, hlt]

theorem strncmp_strnlen_iff (fmax : Nat) (s k : CStr) :
    strncmp s k (strnlen k fmax) = 0 ↔ k.take (strnlen k fmax) <+: s := by
  rw [strncmp_eq_zero_iff, List.prefix_iff_eq_take]
  have hlen : (k.take (strnlen k fmax)).length = strnlen k fmax := by
    simp [strnlen]
  rw [hlen]
  exact eq_comm

theorem strnlen_of_le (fmax : Nat) (k : CStr) (h : k.length ≤ fmax) :
    strnlen k fmax = k.length := by
  simp [strnlen, h]

theorem strncmp_key_iff (fmax : Nat) (s k : CStr) (h : k.length ≤ fmax) :
    strncmp s k (strnlen k fmax) = 0 ↔ k <+: s := by
  rw [strncmp_strnlen_iff, strnlen_of_le fmax k h, List.take_length]

theorem strncmp_reads_le (s k : CStr) (n : Nat) :
    strncmp_reads s k n ≤ s.length + 1 := by
  induction n generalizing s k with
  | zero => simp [strncmp_reads]
  | succ n ih =>
    cases s with
    | nil => simp [strncmp_reads]
    | cons a s =>
      cases k with
      | nil => simp [strncmp_reads]
      | cons b k =>
        by_cases hab : a = b
        · have := ih s k
          simp only [strncmp_reads, hab, if_true, List.length_cons]
          omega
        · simp [strncmp_reads, hab]

theorem print_indexed_seq_eq (fout1 : CStr) (seq1 seqi : kseq_t) (seqj : Option kseq_t) :
    print_indexed_seq fout1 seq1 seqi seqj = fout1 ++ spec_record seq1 seqi seqj := by
  by_cases hc : seq1.comment = [] <;> by_cases hq : seq1.qual = [] <;>
    cases seqj <;> simp [print_indexed_seq, spec_record, hc, hq]

theorem main_find_eq_scan (fmax : Nat) (table : List Barcode) (seqi : kseq_t)
    (seqj : Option kseq_t) :
    main_find fmax table seqi seqj = main_scan (main_test fmax seqi seqj) table 0 := by
  cases seqj <;> rfl

theorem main_test_iff_spec (fmax : Nat) (seqi : kseq_t) (seqj : Option kseq_t) (e : Barcode)
    (hfit : key_fits fmax e) :
    main_test fmax seqi seqj e = true ↔ spec_matches e seqi seqj := by
  obtain ⟨key1, key2⟩ := e
  obtain ⟨h1, h2⟩ := hfit
  simp only at h1 h2
  cases seqj with
  | none =>
    simp only [main_test, main_test1, barcode_len, beq_iff_eq, spec_matches]
    rw [strncmp_key_iff fmax _ _ h1]
    simp
  | some sj =>
    cases key2 with
    | none =>
      simp only [main_test, main_test2, barcode_len, barcodej_len, beq_iff_eq, spec_matches,
        Bool.and_eq_true]
      rw [strncmp_key_iff fmax _ _ h1]
      simp [strncmp]
    | some k2 =>
      simp only [main_test, main_test2, barcode_len, barcodej_len, beq_iff_eq, spec_matches,
        Bool.and_eq_true, Option.getD_some]
      rw [strncmp_key_iff fmax _ _ h1, strncmp_key_iff fmax _ _ (h2 k2 rfl)]
      simp

theorem main_scan_le (test : Barcode → Bool) (table : List Barcode) (i : Nat) :
    main_scan test table i ≤ i + table.length := by
  induction table generalizing i with
  | nil => simp [main_scan]
  | cons e rest ih =>
    by_cases h : test e = true
    · simp [main_scan, h]
    · have := ih (i + 1)
      simp only [main_scan, h, List.length_cons]
      simp only [Bool.false_eq_true, if_false]
      omega

theorem main_scan_first (test : Barcode → Bool) (table : List Barcode) (i k : Nat) (e : Barcode)
    (hk : table[k]? = some e) (he : test e = true)
    (hfirst : ∀ j e', j < k → table[j]? = some e' → test e' = false) :
    main_scan test table i = i + k := by
  induction table generalizing i k with
  | nil => simp at hk
  | cons a rest ih =>
    cases k with
    | zero =>
      simp only [List.getElem?_cons_zero, Option.some.injEq] at hk
      subst hk
      simp [main_scan, he]
    | succ k =>
      have ha : test a = false := hfirst 0 a (Nat.succ_pos k) (by simp)
      simp only [List.getElem?_cons_succ] at hk
      have := ih (i + 1) k hk (fun j e' hj hj' => hfirst (j + 1) e' (by omega) (by simpa using hj'))
      simp only [main_scan, ha, Bool.false_eq_true, if_false, this]
      omega

theorem main_scan_single (test : Barcode → Bool) (e : Barcode) :
    main_scan test [e] 0 = 0 ↔ test e = true := by
  by_cases h : test e = true <;> simp [main_scan, h]

theorem main_print_of_open (files : List (Option FILE)) (i : Nat) (fout : FILE)
    (seq seqi : kseq_t) (seqj : Option kseq_t) (hf : files[i]? = some (some fout)) :
    main_print files i seq seqi seqj =
      some (files.set i (some { fout with text := print_indexed_seq fout.text seq seqi seqj })) := by
  simp [main_print, hf]

theorem main_classify_first (fmax : Nat) (no_other : Bool) (table : List Barcode)
    (seqi : kseq_t) (seqj : Option kseq_t) (i : Nat) (e : Barcode)
    (hfit : ∀ e' ∈ table, key_fits fmax e')
    (hi : table[i]? = some e) (hm : spec_matches e seqi seqj)
    (hfirst : ∀ j e', j < i → table[j]? = some e' → ¬ spec_matches e' seqi seqj) :
    main_classify fmax no_other table seqi seqj = some i := by
  have hlt : i < table.length := by
    rcases Nat.lt_or_ge i table.length with h | h
    · exact h
    · rw [List.getElem?_eq_none h] at hi
      cases hi
  have hfind : main_find fmax table seqi seqj = i := by
    rw [main_find_eq_scan]
    have := main_scan_first (main_test fmax seqi seqj) table 0 i e hi
      ((main_test_iff_spec fmax seqi seqj e (hfit e (List.getElem?_mem hi))).mpr hm)
      (fun j e' hj hj' => by
        cases ht : main_test fmax seqi seqj e' with
        | false => rfl
        | true =>
          exact absurd
            ((main_test_iff_spec fmax seqi seqj e' (hfit e' (List.getElem?_mem hj'))).mp ht)
            (hfirst j e' hj hj'))
    simpa using this
  have hlen : i ≠ table.length := by omega
  simp [main_classify, hfind, hlen]

theorem scenario_table_fits : ∀ e ∈ main_table false scenario_overlap, key_fits 4096 e := by
  intro e he
  simp only [main_table, scenario_overlap, Bool.not_false, if_true, List.cons_append,
    List.nil_append, List.mem_cons, List.mem_singleton, List.not_mem_nil, or_false] at he
  rcases he with h | h | h | h <;> subst h
  · exact ⟨by decide, fun _ h => by cases h⟩
  · exact ⟨by decide, fun _ h => by cases h⟩
  · exact ⟨by decide, fun _ h => by cases h⟩
  · refine ⟨by decide, fun k h => ?_⟩
    simp only [OTHER, Option.some.injEq] at h
    subst h
    decide

theorem main_filename_eq (fmax : Nat) (pre : CStr) (e : Barcode)
    (hfit : (spec_filename pre e).length < fmax) :
    main_filename fmax pre e = some (spec_filename pre e) := by
  obtain ⟨key1, key2⟩ := e
  cases key2 with
  | none =>
    simp only [spec_filename, List.length_append, List.append_nil] at hfit
    have e1 : pre.take fmax = pre := List.take_of_length_le (by omega)
    have e2 : key1.take fmax = key1 := List.take_of_length_le (by omega)
    have e3 : "_".toList.take fmax = "_".toList := List.take_of_length_le (by omega)
    have e4 : ".fastq".toList.take fmax = ".fastq".toList := List.take_of_length_le (by omega)
    simp only [main_filename, strncpy, strncat, e1, e2, e3, e4, spec_filename,
      List.append_nil]
    simp only [List.length_append]
    rw [if_pos hfit]
  | some k2 =>
    simp only [spec_filename, List.length_append] at hfit
    have e1 : pre.take fmax = pre := List.take_of_length_le (by omega)
    have e2 : key1.take fmax = key1 := List.take_of_length_le (by omega)
    have e3 : "_".toList.take fmax = "_".toList := List.take_of_length_le (by omega)
    have e4 : ".fastq".toList.take fmax = ".fastq".toList := List.take_of_length_le (by omega)
    have e5 : ":".toList.take fmax = ":".toList := List.take_of_length_le (by omega)
    have e6 : k2.take fmax = k2 := List.take_of_length_le (by omega)
    simp only [main_filename, strncpy, strncat, e1, e2, e3, e4, e5, e6, spec_filename,
      List.append_assoc]
    simp only [List.length_append]
    rw [if_pos (by omega)]

theorem main_open_set1 (fmax : Nat) (fopen : CStr → Bool) (pre : CStr)
    (prefix_out2 : Option CStr) (table : List Barcode)
    (hfit : ∀ e ∈ table, (spec_filename pre e).length < fmax)
    (hopen : ∀ e ∈ table, fopen (spec_filename pre e) = true) :
    main_open fmax fopen pre false prefix_out2 table =
      .ok (table.map (fun e => some { name := spec_filename pre e, text := [] }),
           table.map (fun _ => none)) := by
  induction table with
  | nil => rfl
  | cons e rest ih =>
    have ih' := ih (fun e' he' => hfit e' (by simp [he'])) (fun e' he' => hopen e' (by simp [he']))
    simp [main_open, main_filename_eq fmax pre e (hfit e (by simp)), hopen e (by simp), ih']

theorem main_open_set2 (fmax : Nat) (fopen : CStr → Bool) (pre pre2 : CStr)
    (table : List Barcode)
    (hfit : ∀ e ∈ table, (spec_filename pre e).length < fmax)
    (hopen : ∀ e ∈ table, fopen (spec_filename pre e) = true)
    (hfit2 : ∀ e ∈ table, (spec_filename pre2 e).length < fmax)
    (hopen2 : ∀ e ∈ table, fopen (spec_filename pre2 e) = true) :
    main_open fmax fopen pre true (some pre2) table =
      .ok (table.map (fun e => some { name := spec_filename pre e, text := [] }),
           table.map (fun e => some { name := spec_filename pre2 e, text := [] })) := by
  induction table with
  | nil => rfl
  | cons e rest ih =>
    have ih' := ih (fun e' he' => hfit e' (by simp [he'])) (fun e' he' => hopen e' (by simp [he']))
      (fun e' he' => hfit2 e' (by simp [he'])) (fun e' he' => hopen2 e' (by simp [he']))
    simp [main_open, main_filename_eq fmax pre e (hfit e (by simp)), hopen e (by simp),
      main_filename_eq fmax pre2 e (hfit2 e (by simp)), hopen2 e (by simp), ih']

theorem main_loop_eq_bodies (fmax : Nat) (no_other : Bool) (table : List Barcode)
    (fq1 fqi : List kseq_t) (fq2 fqj : Option (List kseq_t)) (o : Outputs) :
    main_loop fmax no_other table fq1 fqi fq2 fqj o =
      main_bodies fmax no_other table (main_tuples fq1 fqi fq2 fqj) o := by
  induction fq1 generalizing fqi fq2 fqj o with
  | nil => simp [main_loop, main_tuples, main_bodies]
  | cons seq1 fq1 ih =>
    cases fqi with
    | nil => simp [main_loop, main_tuples, main_bodies]
    | cons seqi fqi =>
      simp only [main_loop, main_tuples]
      cases h2 : main_read_optional fq2 with
      | none => simp [main_bodies]
      | some p2 =>
        obtain ⟨seq2, fq2'⟩ := p2
        cases hj : main_read_optional fqj with
        | none => simp [main_bodies]
        | some pj =>
          obtain ⟨seqj, fqj'⟩ := pj
          simp only [main_bodies]
          cases hb : main_body fmax no_other table o seq1 seqi seq2 seqj with
          | none => rfl
          | some o' => exact ih fqi fq2' fqj' o'

theorem main_read_optional_some (fq fq' : Option (List kseq_t)) (seq : Option kseq_t)
    (h : main_read_optional fq = some (seq, fq')) :
    (fq = none ∧ seq = none ∧ fq' = none) ∨
      ∃ r rest, fq = some (r :: rest) ∧ seq = some r ∧ fq' = some rest := by
  cases fq with
  | none =>
    simp only [main_read_optional, Option.some.injEq, Prod.mk.injEq] at h
    exact Or.inl ⟨rfl, h.1.symm, h.2.symm⟩
  | some l =>
    cases l with
    | nil => simp [main_read_optional, kseq_read] at h
    | cons r rest =>
      simp only [main_read_optional, kseq_read, Option.some.injEq, Prod.mk.injEq] at h
      exact Or.inr ⟨r, rest, rfl, h.1.symm, h.2.symm⟩

theorem main_tuples_getElem? (fq1 fqi : List kseq_t) (fq2 fqj : Option (List kseq_t))
    (k : Nat) (t : Tuple) (ht : (main_tuples fq1 fqi fq2 fqj)[k]? = some t) :
    fq1[k]? = some t.seq1 ∧ fqi[k]? = some t.seqi ∧
      stream_record_at k t.seq2 fq2 ∧ stream_record_at k t.seqj fqj := by
  induction fq1 generalizing fqi fq2 fqj k with
  | nil => simp [main_tuples] at ht
  | cons seq1 fq1 ih =>
    cases fqi with
    | nil => simp [main_tuples] at ht
    | cons seqi fqi =>
      simp only [main_tuples] at ht
      cases h2 : main_read_optional fq2 with
      | none => simp [h2] at ht
      | some p2 =>
        obtain ⟨seq2, fq2'⟩ := p2
        cases hj : main_read_optional fqj with
        | none => simp [h2, hj] at ht
        | some pj =>
          obtain ⟨seqj, fqj'⟩ := pj
          simp only [h2, hj] at ht
          cases k with
          | zero =>
            simp only [List.getElem?_cons_zero, Option.some.injEq] at ht
            subst ht
            refine ⟨by simp, by simp, ?_, ?_⟩
            · rcases main_read_optional_some fq2 fq2' seq2 h2 with
                ⟨e1, e2, _⟩ | ⟨r, rest, e1, e2, _⟩ <;> subst e1 e2 <;>
                simp [stream_record_at]
            · rcases main_read_optional_some fqj fqj' seqj hj with
                ⟨e1, e2, _⟩ | ⟨r, rest, e1, e2, _⟩ <;> subst e1 e2 <;>
                simp [stream_record_at]
          | succ k =>
            simp only [List.getElem?_cons_succ] at ht
            obtain ⟨a, b, c, d⟩ := ih fqi fq2' fqj' k ht
            refine ⟨by simpa using a, by simpa using b, ?_, ?_⟩
            · rcases main_read_optional_some fq2 fq2' seq2 h2 with
                ⟨e1, _, e2⟩ | ⟨r, rest, e1, _, e2⟩ <;> subst e1 e2
              · exact c
              · simpa [stream_record_at] using c
            · rcases main_read_optional_some fqj fqj' seqj hj with
                ⟨e1, _, e2⟩ | ⟨r, rest, e1, _, e2⟩ <;> subst e1 e2
              · exact d
              · simpa [stream_record_at] using d

/-! ## Output formatting -/

/-- C5: `print_indexed_seq` appends to the file exactly the four lines of
the specification: `@` + identifier + (space + comment, if present) + space
+ index1 sequence + (`:` + index2 sequence, if index2 is present); the
primary sequence; `+`; the primary quality if present, else an empty line. -/
theorem print_indexed_seq_appends_spec_record (fout1 : CStr) (seq1 seqi : kseq_t)
    (seqj : Option kseq_t) :
    print_indexed_seq fout1 seq1 seqi seqj = fout1 ++ spec_record seq1 seqi seqj := by
  by_cases hc : seq1.comment = []
  · by_cases hq : seq1.qual = []
    · cases seqj <;> simp [print_indexed_seq, spec_record, hc, hq]
    · cases seqj <;> simp [print_indexed_seq, spec_record, hc, hq]
  · by_cases hq : seq1.qual = []
    · cases seqj <;> simp [print_indexed_seq, spec_record, hc, hq]
    · cases seqj <;> simp [print_indexed_seq, spec_record, hc, hq]

/-! ## Matching -/

/-- C4: without index2 an entry matches iff the `len1` bytes of `key1` are
a prefix of the index1 sequence, both for the test of line 377 and for the
loop over a table holding that entry; an entry whose `len1` exceeds the
length of the sequence does not match; and `strncmp` inspects no position of
the sequence after its terminator. -/
theorem single_index_match_iff_key_starts_sequence (fmax : Nat) (e : Barcode) (seqi : kseq_t) :
    (main_test1 fmax seqi e = true ↔ e.barcode.take (barcode_len fmax e) <+: seqi.seq) ∧
    (main_find fmax [e] seqi none = 0 ↔ e.barcode.take (barcode_len fmax e) <+: seqi.seq) ∧
    (seqi.seq.length < barcode_len fmax e → main_test1 fmax seqi e = false) ∧
    strncmp_reads seqi.seq e.barcode (barcode_len fmax e) ≤ seqi.seq.length + 1 := by
  have hiff : main_test1 fmax seqi e = true ↔
      e.barcode.take (barcode_len fmax e) <+: seqi.seq := by
    simp only [main_test1, barcode_len, beq_iff_eq]
    exact strncmp_strnlen_iff fmax seqi.seq e.barcode
  refine ⟨hiff, ?_, ?_, ?_⟩
  · simp only [main_find]
    rw [main_scan_single]
    exact hiff
  · intro hlt
    cases htest : main_test1 fmax seqi e with
    | false => rfl
    | true =>
      have hpre := hiff.mp htest
      have hle := hpre.length_le
      simp only [List.length_take, barcode_len, strnlen] at hle hlt
      omega
  · exact strncmp_reads_le seqi.seq e.barcode (barcode_len fmax e)

/-- Witness for C4: the key `AAAAAAAAAA` is longer than the index1 sequence
`AAAA` and does not match it. -/
theorem single_index_match_iff_key_starts_sequence_witness :
    "AAAA".toList.length < barcode_len 4096 { barcode := "AAAAAAAAAA".toList, barcodej := none } ∧
    main_test1 4096 { name := "R1".toList, comment := [], seq := "AAAA".toList, qual := [] }
      { barcode := "AAAAAAAAAA".toList, barcodej := none } = false :=
  ⟨by decide,
    (single_index_match_iff_key_starts_sequence 4096
      { barcode := "AAAAAAAAAA".toList, barcodej := none }
      { name := "R1".toList, comment := [], seq := "AAAA".toList, qual := [] }).2.2.1
      (by decide)⟩

/-- C3: with index2 configured, an entry with both keys (each no longer than
`FILENAME_MAX`) matches iff `key1` is a prefix of the index1 sequence and
`key2` is a prefix of the index2 sequence, for the test of lines 371-372 and
for the loop over a table holding that entry; the entry `(AA, TT)` is not
selected for index1 `AA...` with index2 `CC...`. -/
theorem dual_index_match_iff_both_keys_are_prefixes (fmax : Nat) (key1 key2 : CStr)
    (seqi seqj : kseq_t) (h1 : key1.length ≤ fmax) (h2 : key2.length ≤ fmax) :
    (main_test2 fmax seqi seqj { barcode := key1, barcodej := some key2 } = true ↔
      key1 <+: seqi.seq ∧ key2 <+: seqj.seq) ∧
    (main_find fmax [{ barcode := key1, barcodej := some key2 }] seqi (some seqj) = 0 ↔
      key1 <+: seqi.seq ∧ key2 <+: seqj.seq) ∧
    (key1 = "AA".toList → key2 = "TT".toList →
      ∀ rest1 rest2 : CStr, seqi.seq = "AA".toList ++ rest1 → seqj.seq = "CC".toList ++ rest2 →
        ∀ no_other : Bool,
          main_classify fmax no_other
            (main_table no_other [{ barcode := key1, barcodej := some key2 }]) seqi (some seqj)
              ≠ some 0) := by
  have hiff : main_test2 fmax seqi seqj { barcode := key1, barcodej := some key2 } = true ↔
      key1 <+: seqi.seq ∧ key2 <+: seqj.seq := by
    simp only [main_test2, barcode_len, barcodej_len, Bool.and_eq_true, beq_iff_eq,
      Option.getD_some]
    rw [strncmp_key_iff fmax _ _ h1, strncmp_key_iff fmax _ _ h2]
  refine ⟨hiff, ?_, ?_⟩
  · simp only [main_find]
    rw [main_scan_single]
    exact hiff
  · intro hk1 hk2 rest1 rest2 hs1 hs2 no_other
    have hno : main_test2 fmax seqi seqj { barcode := key1, barcodej := some key2 } = false := by
      cases htest : main_test2 fmax seqi seqj { barcode := key1, barcodej := some key2 } with
      | false => rfl
      | true =>
        have hp := (hiff.mp htest).2
        rw [hk2, hs2] at hp
        obtain ⟨t, ht⟩ := hp
        simp at ht
    cases no_other
    · cases hoth : main_test2 fmax seqi seqj OTHER <;>
        simp [main_classify, main_find, main_table, main_scan, hno, hoth]
    · simp [main_classify, main_find, main_table, main_scan, hno]

/-- Witness for C3, scenario C: table `[(AA, TT)]`, index1 `AACG`, index2
`CCGT`. -/
theorem dual_index_match_iff_both_keys_are_prefixes_witness :
    ("AA".toList.length ≤ 4096 ∧ "TT".toList.length ≤ 4096) ∧
    ∀ no_other : Bool,
      main_classify 4096 no_other
        (main_table no_other [{ barcode := "AA".toList, barcodej := some "TT".toList }])
        { name := "R1".toList, comment := [], seq := "AACG".toList, qual := [] }
        (some { name := "R1".toList, comment := [], seq := "CCGT".toList, qual := [] })
          ≠ some 0 :=
  ⟨⟨by decide, by decide⟩,
    (dual_index_match_iff_both_keys_are_prefixes 4096 "AA".toList "TT".toList
      { name := "R1".toList, comment := [], seq := "AACG".toList, qual := [] }
      { name := "R1".toList, comment := [], seq := "CCGT".toList, qual := [] }
      (by decide) (by decide)).2.2 rfl rfl "CG".toList "GT".toList rfl rfl⟩

/-! ## Routing -/

/-- C1: for every table (the catch-all entry included when there is one,
keys no longer than `FILENAME_MAX`) and every tuple, in single-index and
dual-index mode alike: when entry `i` matches the tuple in the spec's sense
and no entry before it does, the tuple is classified to `i`; the primary1
record is appended to set-1 destination `i`, the primary2 record (if any) to
set-2 destination `i`, and every other destination is left as it was. An
entry that is the only match is in particular the first. -/
theorem first_matching_entry_receives_the_record (fmax : Nat) (no_other : Bool)
    (table : List Barcode) (o : Outputs) (seq1 seqi : kseq_t) (seq2 seqj : Option kseq_t)
    (i : Nat) (e : Barcode) (f1 : FILE)
    (hfit : ∀ e' ∈ table, key_fits fmax e')
    (hi : table[i]? = some e) (hm : spec_matches e seqi seqj)
    (hfirst : ∀ j e', j < i → table[j]? = some e' → ¬ spec_matches e' seqi seqj)
    (hf1 : o.barcode_files1[i]? = some (some f1))
    (hf2 : ∀ s2, seq2 = some s2 → ∃ f2, o.barcode_files2[i]? = some (some f2)) :
    main_classify fmax no_other table seqi seqj = some i ∧
    ∃ o', main_route fmax no_other table o seq1 seqi seq2 seqj = some o' ∧
      o'.barcode_files1[i]? =
        some (some { f1 with text := f1.text ++ spec_record seq1 seqi seqj }) ∧
      (∀ s2 f2, seq2 = some s2 → o.barcode_files2[i]? = some (some f2) →
        o'.barcode_files2[i]? =
          some (some { f2 with text := f2.text ++ spec_record s2 seqi seqj })) ∧
      (seq2 = none → o'.barcode_files2 = o.barcode_files2) ∧
      (∀ j, j ≠ i → o'.barcode_files1[j]? = o.barcode_files1[j]? ∧
        o'.barcode_files2[j]? = o.barcode_files2[j]?) ∧
      o'.stderr = o.stderr := by
  have hcl := main_classify_first fmax no_other table seqi seqj i e hfit hi hm hfirst
  refine ⟨hcl, ?_⟩
  have hlt1 : i < o.barcode_files1.length := by
    rcases Nat.lt_or_ge i o.barcode_files1.length with h | h
    · exact h
    · rw [List.getElem?_eq_none h] at hf1
      cases hf1
  simp only [main_route, hcl, main_write, main_print_of_open _ i f1 seq1 seqi seqj hf1]
  cases seq2 with
  | none =>
    refine ⟨_, rfl, ?_, ?_, ?_, ?_, rfl⟩
    · simp [hlt1, print_indexed_seq_eq]
    · intro s2 f2 h
      cases h
    · intro _
      rfl
    · intro j hj
      exact ⟨by simp [List.getElem?_set_ne (Ne.symm hj)], rfl⟩
  | some s2 =>
    obtain ⟨f2, hf2'⟩ := hf2 s2 rfl
    have hlt2 : i < o.barcode_files2.length := by
      rcases Nat.lt_or_ge i o.barcode_files2.length with h | h
      · exact h
      · rw [List.getElem?_eq_none h] at hf2'
        cases hf2'
    simp only [main_print_of_open _ i f2 s2 seqi seqj hf2']
    refine ⟨_, rfl, ?_, ?_, ?_, ?_, rfl⟩
    · simp [hlt1, print_indexed_seq_eq]
    · intro s2' f2' h hf
      cases h
      rw [hf2'] at hf
      cases hf
      simp [hlt2, print_indexed_seq_eq]
    · intro h
      cases h
    · intro j hj
      exact ⟨by simp [List.getElem?_set_ne (Ne.symm hj)],
        by simp [List.getElem?_set_ne (Ne.symm hj)]⟩

/-- Witness for C1: index1 `AAAACGT` against `GGGG`, `AAAA`, `AAAAC` and the
catch-all entry: both `AAAA` and `AAAAC` match, entry 1 (`AAAA`) is selected
and only its destination receives the record. -/
theorem first_matching_entry_receives_the_record_witness :
    main_classify 4096 false (main_table false scenario_overlap) scenario_seqi none = some 1 ∧
    main_route 4096 false (main_table false scenario_overlap) scenario_outputs
        scenario_seq1 scenario_seqi none none
      = some { scenario_outputs with
          barcode_files1 :=
            [some { name := "s_GGGG.fastq".toList, text := [] },
             some { name := "s_AAAA.fastq".toList,
                    text := "@R1 AAAACGT\nACGT\n+\n####\n".toList },
             some { name := "s_AAAAC.fastq".toList, text := [] },
             some { name := "s_OTHER:OTHER.fastq".toList, text := [] }] } :=
  ⟨(first_matching_entry_receives_the_record 4096 false (main_table false scenario_overlap)
      scenario_outputs scenario_seq1 scenario_seqi none none 1
      { barcode := "AAAA".toList, barcodej := none }
      { name := "s_AAAA.fastq".toList, text := [] }
      scenario_table_fits rfl
      ⟨by decide, fun _ _ h => by cases h⟩
      (fun j e' hj hj' => by
        have hj0 : j = 0 := by omega
        subst hj0
        have he' : e' = { barcode := "GGGG".toList, barcodej := none } := by
          simpa [main_table, scenario_overlap] using hj'.symm
        subst he'
        intro hm
        exact absurd hm.1 (by decide))
      rfl
      (fun _ h => by cases h)).1,
   rfl⟩

/-- C7: for the whole table, catch-all entry included, when every name is
shorter than `FILENAME_MAX` and can be opened: startup opens for each entry,
in table order, one set-1 destination named prefix1 + `_` + key1 + (`:` +
key2, if any) + `.fastq`, and, with a second primary stream, one set-2
destination with prefix2 in place of prefix1, otherwise no set-2
destination. The catch-all entry's name is prefix + `_OTHER:OTHER.fastq`. -/
theorem one_destination_per_entry_named_by_pattern (fmax : Nat) (fopen : CStr → Bool)
    (pre : CStr) (no_other : Bool) (barcodes : List Barcode)
    (hfit : ∀ e ∈ main_table no_other barcodes, (spec_filename pre e).length < fmax)
    (hopen : ∀ e ∈ main_table no_other barcodes, fopen (spec_filename pre e) = true) :
    (∀ prefix_out2 : Option CStr,
      main_open fmax fopen pre false prefix_out2 (main_table no_other barcodes) =
        .ok ((main_table no_other barcodes).map
              (fun e => some { name := spec_filename pre e, text := [] }),
             (main_table no_other barcodes).map (fun _ => none))) ∧
    (∀ pre2 : CStr,
      (∀ e ∈ main_table no_other barcodes, (spec_filename pre2 e).length < fmax) →
      (∀ e ∈ main_table no_other barcodes, fopen (spec_filename pre2 e) = true) →
      main_open fmax fopen pre true (some pre2) (main_table no_other barcodes) =
        .ok ((main_table no_other barcodes).map
              (fun e => some { name := spec_filename pre e, text := [] }),
             (main_table no_other barcodes).map
              (fun e => some { name := spec_filename pre2 e, text := [] }))) ∧
    (no_other = false →
      (main_table no_other barcodes)[barcodes.length]? = some OTHER ∧
      spec_filename pre OTHER = pre ++ "_OTHER:OTHER.fastq".toList) := by
  refine ⟨?_, ?_, ?_⟩
  · intro prefix_out2
    exact main_open_set1 fmax fopen pre prefix_out2 _ hfit hopen
  · intro pre2 hfit2 hopen2
    exact main_open_set2 fmax fopen pre pre2 _ hfit hopen hfit2 hopen2
  · intro hno
    subst hno
    exact ⟨by simp [main_table], by simp [spec_filename, OTHER]⟩

/-- Witness for C7: prefix `s`, table `AA:TT` with the catch-all, every file
can be opened: two set-1 destinations, `s_AA:TT.fastq` and
`s_OTHER:OTHER.fastq`, and no set-2 destination. -/
theorem one_destination_per_entry_named_by_pattern_witness :
    main_open 4096 (fun _ => true) "s".toList false none
        (main_table false [{ barcode := "AA".toList, barcodej := some "TT".toList }]) =
      .ok ([some { name := "s_AA:TT.fastq".toList, text := [] },
            some { name := "s_OTHER:OTHER.fastq".toList, text := [] }],
           [none, none]) :=
  (one_destination_per_entry_named_by_pattern 4096 (fun _ => true) "s".toList false
    [{ barcode := "AA".toList, barcodej := some "TT".toList }]
    (fun e he => by
      simp only [main_table, Bool.not_false, if_true, List.singleton_append, List.mem_cons,
        List.mem_singleton, List.not_mem_nil, or_false] at he
      rcases he with h | h <;> subst h <;> decide)
    (fun _ _ => rfl)).1 none

/-- C6: scenario A. One primary1 record (`R1`, no comment, `ACGT`, `####`),
one index1 record (`R1`, `AAAACGT`), no primary2, no index2, table
`[(AAAA, none)]`, catch-all disabled, the name fitting `FILENAME_MAX` and
the file openable: the run exits with status 0 having opened exactly one
destination, named prefix + `_AAAA.fastq`, to which it appended exactly
`@R1 AAAACGT\nACGT\n+\n####\n`. -/
theorem scenario_A_writes_one_record (env : Env) (fastq1 fastqi : CStr)
    (index_comment index_qual : CStr) (opt_p opt_q : Option CStr)
    (h1 : env.gzopen fastq1 = some [scenario_seq1])
    (hi : env.gzopen fastqi = some
      [{ name := "R1".toList, comment := index_comment, seq := "AAAACGT".toList,
         qual := index_qual }])
    (hfit : (prefix_path env.FILENAME_MAX fastq1 ++ "_AAAA.fastq".toList).length
      < env.FILENAME_MAX)
    (hopen : env.fopen (prefix_path env.FILENAME_MAX fastq1 ++ "_AAAA.fastq".toList) = true) :
    main env
      { fastq1 := some fastq1, fastq2 := none, fastqi := some fastqi, fastqj := none
        barcodes := some [{ barcode := "AAAA".toList, barcodej := none }]
        no_other := true, prefix_out := opt_p, prefix_out2 := opt_q } =
      .exited 0
        { barcode_files1 :=
            [some { name := prefix_path env.FILENAME_MAX fastq1 ++ "_AAAA.fastq".toList
                    text := "@R1 AAAACGT\nACGT\n+\n####\n".toList }]
          barcode_files2 := [none]
          stderr := [] } := by
  have hname : spec_filename (prefix_path env.FILENAME_MAX fastq1)
      { barcode := "AAAA".toList, barcodej := none }
      = prefix_path env.FILENAME_MAX fastq1 ++ "_AAAA.fastq".toList := by
    simp [spec_filename]
  have hmax : 4 ≤ env.FILENAME_MAX := by
    have hlit : "_AAAA.fastq".toList.length = 11 := rfl
    simp only [List.length_append, hlit] at hfit
    omega
  have hopen' := main_open_set1 env.FILENAME_MAX env.fopen (prefix_path env.FILENAME_MAX fastq1)
    opt_q [{ barcode := "AAAA".toList, barcodej := none }]
    (fun e he => by
      simp only [List.mem_singleton] at he
      subst he
      rw [hname]
      exact hfit)
    (fun e he => by
      simp only [List.mem_singleton] at he
      subst he
      rw [hname]
      exact hopen)
  have hcl : main_classify env.FILENAME_MAX true
      (main_table true [{ barcode := "AAAA".toList, barcodej := none }])
      { name := "R1".toList, comment := index_comment, seq := "AAAACGT".toList,
        qual := index_qual } none = some 0 :=
    main_classify_first env.FILENAME_MAX true _ _ none 0
      { barcode := "AAAA".toList, barcodej := none }
      (fun e he => by
        have he' : e = { barcode := "AAAA".toList, barcodej := none } := by
          simpa [main_table] using he
        subst he'
        exact ⟨hmax, fun _ h => by cases h⟩)
      rfl
      ⟨⟨"CGT".toList, rfl⟩, fun _ _ h => by cases h⟩
      (fun j _ hj _ => by omega)
  have htab : main_table true [{ barcode := "AAAA".toList, barcodej := none : Barcode }]
      = [{ barcode := "AAAA".toList, barcodej := none }] := rfl
  rw [htab] at hcl
  have hchk : main_check_names [] scenario_seq1
      { name := "R1".toList, comment := index_comment, seq := "AAAACGT".toList,
        qual := index_qual } none = some [] := by
    simp [main_check_names, main_name_mismatch, scenario_seq1, strncmp]
  simp only [main, htab, Option.isSome_none, hopen', hname, main_stream, h1, hi,
    Option.getD_some, Option.map_none', List.map_cons, List.map_nil]
  simp only [main_loop, main_read_optional, main_body, hchk, main_route, hcl, main_write,
    main_print]
  rfl

/-- Witness for C6: primary1 file `sample.fastq.gz`, index1 file
`index.fastq.gz`, `FILENAME_MAX` 4096: the destination is
`sample_AAAA.fastq`. -/
theorem scenario_A_writes_one_record_witness :
    main scenario_env (scenario_cfg "AAAA".toList) =
      .exited 0
        { barcode_files1 :=
            [some { name := "sample_AAAA.fastq".toList
                    text := "@R1 AAAACGT\nACGT\n+\n####\n".toList }]
          barcode_files2 := [none]
          stderr := [] } :=
  scenario_A_writes_one_record scenario_env "sample.fastq.gz".toList "index.fastq.gz".toList
    [] "#######".toList none none rfl rfl (by decide) rfl

/-! ## The lock-step loop -/

/-- C9 (defect): without a second primary stream, a tuple whose primary1 and
index1 identifiers differ (`R1` against `R2`) ends the run in the fault of
line 363, which reads `seq2->name.s` with `seq2 == NULL`: the run is aborted,
and neither this tuple nor the matching tuple after it is written. -/
theorem identifier_mismatch_without_second_primary_aborts :
    main scenario_mismatch_env (scenario_cfg "AAAA".toList) = .aborted ∧
    main_body 4096 true [{ barcode := "AAAA".toList, barcodej := none }]
      { barcode_files1 := [some { name := "sample_AAAA.fastq".toList, text := [] }]
        barcode_files2 := [none], stderr := [] }
      scenario_seq1 { scenario_seqi with name := "R2".toList } none none = none :=
  ⟨rfl, rfl⟩

/-- C10 (defect): the values of `-p` and `-q` never reach a file name. Line
275 replaces `prefix_out` by the prefix derived from the primary1 file name,
so a run is the same whatever `-p` was; with `-p out` the set-1 file of
scenario A is still `sample_AAAA.fastq`; and with a second primary file
`mate.fastq.gz` and `-q out2` the set-2 file is `mate_AAAA.fastq`. -/
theorem explicit_prefix_options_are_overwritten :
    (∀ (env : Env) (cfg : Config) (p : Option CStr),
      main env { cfg with prefix_out := p } = main env cfg) ∧
    main scenario_env { scenario_cfg "AAAA".toList with prefix_out := some "out".toList } =
      .exited 0
        { barcode_files1 :=
            [some { name := "sample_AAAA.fastq".toList
                    text := "@R1 AAAACGT\nACGT\n+\n####\n".toList }]
          barcode_files2 := [none]
          stderr := [] } ∧
    main scenario_env
      { scenario_cfg "AAAA".toList with
        fastq2 := some "mate.fastq.gz".toList, prefix_out2 := some "out2".toList } =
      .exited 0
        { barcode_files1 := [some { name := "sample_AAAA.fastq".toList, text := [] }]
          barcode_files2 := [some { name := "mate_AAAA.fastq".toList, text := [] }]
          stderr := [] } :=
  ⟨fun _ _ _ => rfl, rfl, rfl⟩

/-! ## Zero-length keys -/

/-- C16: a key compared over zero bytes matches every sequence. An entry
whose `key1` is empty passes the single-index test for every index1
sequence; in dual-index mode an entry whose second length `len2` is zero
(no `:` part, or an empty `key2`) passes the test exactly when it passes the
`key1` test alone, whatever the index2 sequence; so an entry given without a
second key (key1 no longer than `FILENAME_MAX`) matches exactly the tuples
whose index1 sequence starts with `key1`. -/
theorem zero_length_key_matches_any_sequence (fmax : Nat) (e : Barcode) (seqi seqj : kseq_t) :
    (e.barcode = [] → main_test1 fmax seqi e = true) ∧
    (∀ s : CStr, strncmp s e.barcode 0 = 0 ∧ strncmp s (e.barcodej.getD []) 0 = 0) ∧
    (barcodej_len fmax e = 0 → main_test2 fmax seqi seqj e = main_test1 fmax seqi e) ∧
    (e.barcodej = none → barcodej_len fmax e = 0) ∧
    (e.barcodej = some [] → barcodej_len fmax e = 0) ∧
    (e.barcodej = none → e.barcode.length ≤ fmax →
      (main_test2 fmax seqi seqj e = true ↔ e.barcode <+: seqi.seq) ∧
      (main_find fmax [e] seqi (some seqj) = 0 ↔ e.barcode <+: seqi.seq)) := by
  refine ⟨?_, ?_, ?_, ?_, ?_, ?_⟩
  · intro h
    simp [main_test1, barcode_len, strnlen, h, strncmp]
  · intro s
    exact ⟨by simp [strncmp], by simp [strncmp]⟩
  · intro h
    simp [main_test2, main_test1, h, strncmp]
  · intro h
    simp [barcodej_len, h]
  · intro h
    simp [barcodej_len, h, strnlen]
  · intro hj hlen
    have hiff : main_test2 fmax seqi seqj e = true ↔ e.barcode <+: seqi.seq := by
      simp only [main_test2, barcode_len, barcodej_len, hj, Bool.and_eq_true, beq_iff_eq]
      rw [strncmp_key_iff fmax _ _ hlen]
      simp [strncmp]
    refine ⟨hiff, ?_⟩
    simp only [main_find]
    rw [main_scan_single]
    exact hiff

/-- Witness for C16: in dual-index mode the entry `AAAA` without a second
key matches index1 `AAAACGT` with index2 `TTTTTTT`. -/
theorem zero_length_key_matches_any_sequence_witness :
    main_find 4096 [{ barcode := "AAAA".toList, barcodej := none }] scenario_seqi
      (some { scenario_seqi with seq := "TTTTTTT".toList }) = 0 :=
  ((zero_length_key_matches_any_sequence 4096 { barcode := "AAAA".toList, barcodej := none }
      scenario_seqi { scenario_seqi with seq := "TTTTTTT".toList }).2.2.2.2.2 rfl
      (by decide)).2.mpr ⟨"CGT".toList, rfl⟩

/-! ## Startup failures -/

/-- C13 (defect): a missing primary1 path or barcode table ends the run with
status 1 before anything is opened, but a missing index1 path is not
checked at line 261: without `--i1` the run opens `sample_AAAA.fastq`, reads
no tuple and ends with status 0. -/
theorem missing_index1_path_is_not_rejected :
    (∀ (env : Env) (cfg : Config),
      main env { cfg with fastq1 := none } =
        .exited 1 { barcode_files1 := [], barcode_files2 := [], stderr := [] } ∧
      main env { cfg with barcodes := none } =
        .exited 1 { barcode_files1 := [], barcode_files2 := [], stderr := [] }) ∧
    main scenario_env { scenario_cfg "AAAA".toList with fastqi := none } =
      .exited 0
        { barcode_files1 := [some { name := "sample_AAAA.fastq".toList, text := [] }]
          barcode_files2 := [none]
          stderr := [] } := by
  refine ⟨fun env cfg => ⟨rfl, ?_⟩, rfl⟩
  cases h : cfg.fastq1 <;> simp [main, h]

/-- C14 (defect): only a set-1 output file that cannot be opened ends the
run with status 1 (lines 306-310). When no input file can be opened the run
still opens its output and ends with status 0. When the set-2 file
`mate_GGGG.fastq` cannot be opened, startup goes on with a `NULL` handle in
its place and the loop reads and classifies the tuple; and when the tuple is
routed to the entry whose set-2 file `mate_AAAA.fastq` could not be opened,
the set-1 record is written before the write through the `NULL` handle
faults. -/
theorem unopened_streams_do_not_stop_the_run :
    main scenario_set1_env (scenario_cfg "AAAA".toList) =
      .exited 1 { barcode_files1 := [], barcode_files2 := [], stderr := [] } ∧
    main scenario_unreadable_env (scenario_cfg "AAAA".toList) =
      .exited 0
        { barcode_files1 := [some { name := "sample_AAAA.fastq".toList, text := [] }]
          barcode_files2 := [none]
          stderr := [] } ∧
    main_open 4096 scenario_set2_env.fopen (prefix_path 4096 "sample.fastq.gz".toList) true
        (some (prefix_path 4096 "mate.fastq.gz".toList))
        (main_table true [{ barcode := "GGGG".toList, barcodej := none }]) =
      .ok ([some { name := "sample_GGGG.fastq".toList, text := [] }], [none]) ∧
    main_loop 4096 true (main_table true [{ barcode := "GGGG".toList, barcodej := none }])
        [scenario_seq1] [scenario_seqi] (some [scenario_seq1]) none
        { barcode_files1 := [some { name := "sample_GGGG.fastq".toList, text := [] }]
          barcode_files2 := [none]
          stderr := [] } =
      some
        { barcode_files1 := [some { name := "sample_GGGG.fastq".toList, text := [] }]
          barcode_files2 := [none]
          stderr := [] } ∧
    main_open 4096 scenario_set2_env.fopen (prefix_path 4096 "sample.fastq.gz".toList) true
        (some (prefix_path 4096 "mate.fastq.gz".toList))
        (main_table true [{ barcode := "AAAA".toList, barcodej := none }]) =
      .ok ([some { name := "sample_AAAA.fastq".toList, text := [] }], [none]) ∧
    main_loop 4096 true (main_table true [{ barcode := "AAAA".toList, barcodej := none }])
        [scenario_seq1] [scenario_seqi] (some [scenario_seq1]) none
        { barcode_files1 := [some { name := "sample_AAAA.fastq".toList, text := [] }]
          barcode_files2 := [none]
          stderr := [] } = none ∧
    main_print [some { name := "sample_AAAA.fastq".toList, text := [] }] 0
        scenario_seq1 scenario_seqi none =
      some [some { name := "sample_AAAA.fastq".toList
                   text := "@R1 AAAACGT\nACGT\n+\n####\n".toList }] :=
  ⟨rfl, rfl, rfl, rfl, rfl, rfl, rfl⟩

/-- Lines 397-405 on a run with a second primary file: with both primary
files opened, the loop ends normally (index1 `AAAACGT` does not match the
entry `CCCC`, nothing is written) and the second `gzclose(fq1)` of line 404
then faults; without `--r2` the same run returns 0. -/
theorem second_gzclose_faults_on_a_paired_run :
    main scenario_set2_env
        { scenario_cfg "CCCC".toList with fastq2 := some "mate.fastq.gz".toList } = .aborted ∧
    main scenario_set2_env (scenario_cfg "CCCC".toList) =
      .exited 0
        { barcode_files1 := [some { name := "sample_CCCC.fastq".toList, text := [] }]
          barcode_files2 := [none]
          stderr := [] } :=
  ⟨rfl, rfl⟩

/-! ## Suffix stripping -/

theorem takeWhile_append_stop {α : Type} (p : α → Bool) (a b : List α) (x : α) (hx : p x = false) :
    (a ++ x :: b).takeWhile p = a.takeWhile p := by
  induction a with
  | nil => simp [List.takeWhile, hx]
  | cons y a ih =>
    by_cases hy : p y = true
    · simp [List.takeWhile, hy, ih]
    · simp [List.takeWhile, hy]

theorem takeWhile_all {α : Type} (p : α → Bool) (a : List α) (h : ∀ x ∈ a, p x = true) :
    a.takeWhile p = a := by
  induction a with
  | nil => rfl
  | cons y a ih =>
    have hy : p y = true := h y (by simp)
    simp [List.takeWhile, hy, ih (fun x hx => h x (by simp [hx]))]

theorem mem_takeWhile_holds {α : Type} (p : α → Bool) (a : List α) :
    ∀ x ∈ a.takeWhile p, p x = true := by
  induction a with
  | nil => intro x hx; simp at hx
  | cons y a ih =>
    intro x hx
    by_cases hy : p y = true
    · simp only [List.takeWhile, hy, List.mem_cons] at hx
      rcases hx with h | h
      · subst h; exact hy
      · exact ih x h
    · simp [List.takeWhile, hy] at hx

theorem dropWhile_head_fails {α : Type} (p : α → Bool) (a : List α) (x : α) (rest : List α)
    (h : a.dropWhile p = x :: rest) : p x = false := by
  induction a with
  | nil => simp at h
  | cons y a ih =>
    by_cases hy : p y = true
    · simp only [List.dropWhile, hy] at h
      exact ih h
    · simp only [List.dropWhile, hy, List.cons.injEq] at h
      rw [← h.1]
      simpa using hy

/-- The last occurrence of a character splits the string. -/
theorem last_occurrence_split (c : Char) (name : CStr) (h : c ∈ name) :
    ∃ pre post, name = pre ++ c :: post ∧ c ∉ post ∧
      name.reverse.takeWhile (fun d => d != c) = post.reverse := by
  have hsplit := List.takeWhile_append_dropWhile (fun d => d != c) name.reverse
  have hne : name.reverse.dropWhile (fun d => d != c) ≠ [] := by
    intro hnil
    rw [List.dropWhile_eq_nil_iff] at hnil
    have := hnil c (by simpa using h)
    simp at this
  obtain ⟨x, rest, hdrop⟩ := List.exists_cons_of_ne_nil hne
  have hx : x = c := by
    have h0 := dropWhile_head_fails (fun d => d != c) name.reverse x rest hdrop
    simpa using h0
  subst hx
  refine ⟨rest.reverse, (name.reverse.takeWhile (fun d => d != x)).reverse, ?_, ?_, by simp⟩
  · have := congrArg List.reverse hsplit
    rw [hdrop] at this
    simp only [List.reverse_append, List.reverse_cons, List.reverse_reverse,
      List.append_assoc, List.singleton_append] at this
    exact this.symm
  · intro hmem
    have := mem_takeWhile_holds (fun d => d != x) name.reverse x (by simpa using hmem)
    simp at this

theorem strrchr_of_mem (c : Char) (name : CStr) (h : c ∈ name) :
    ∃ pre post, name = pre ++ c :: post ∧ c ∉ post ∧ strrchr name c = some pre.length := by
  obtain ⟨pre, post, hname, hpost, htw⟩ := last_occurrence_split c name h
  refine ⟨pre, post, hname, hpost, ?_⟩
  simp only [strrchr, h, if_true, htw, List.length_reverse]
  rw [hname]
  simp only [List.length_append, List.length_cons, Option.some.injEq]
  omega

theorem strrchr_of_not_mem (c : Char) (name : CStr) (h : c ∉ name) : strrchr name c = none := by
  simp [strrchr, h]

theorem basename_no_slash (path : CStr) : '/' ∉ basename path := by
  intro hmem
  have := mem_takeWhile_holds (fun c => c != '/') path.reverse '/' (by simpa [basename] using hmem)
  simp at this

theorem basename_of_no_slash (path : CStr) (h : '/' ∉ path) : basename path = path := by
  have : path.reverse.takeWhile (fun c => c != '/') = path.reverse :=
    takeWhile_all _ _ (fun x hx => by
      have hx' : x ∈ path := by simpa using hx
      have : x ≠ '/' := fun hxe => h (hxe ▸ hx')
      simpa using this)
  simp [basename, this]

theorem basename_length_le (path : CStr) : (basename path).length ≤ path.length := by
  have := (List.takeWhile_prefix (fun c => c != '/') (l := path.reverse)).length_le
  simpa [basename] using this

theorem prefix_fuel_eq (fmax : Nat) (fuel : Nat) (path : CStr) (hfuel : path.length ≤ fuel) :
    prefix_fuel fmax fuel path =
      (basename (path.take fmax)).takeWhile (fun c => c != '.') := by
  induction fuel generalizing path with
  | zero =>
    have hnil : path = [] := List.eq_nil_of_length_eq_zero (by omega)
    subst hnil
    simp [prefix_fuel, basename]
  | succ fuel ih =>
    have hlen : (basename (path.take fmax)).length ≤ path.length :=
      (basename_length_le _).trans (by simp)
    have hlen' : (basename (path.take fmax)).length ≤ fmax :=
      (basename_length_le _).trans (by simp)
    by_cases hdot : '.' ∈ basename (path.take fmax)
    · obtain ⟨pre, post, hname, hpost, hk⟩ := strrchr_of_mem '.' _ hdot
      have hpre_len : pre.length < (basename (path.take fmax)).length := by
        rw [hname]; simp
      have htake : (basename (path.take fmax)).take pre.length = pre := by
        rw [hname]; simp
      have hdrop : (basename (path.take fmax)).drop pre.length = '.' :: post := by
        rw [hname]; simp
      have hne : strcmp_ne ('.' :: post) "gz".toList = true := by
        simp [strcmp_ne]
      have hpre_slash : '/' ∉ pre := by
        intro hmem
        exact basename_no_slash (path.take fmax) (by rw [hname]; simp [hmem])
      have hpre_take : pre.take fmax = pre := List.take_of_length_le (by omega)
      simp only [prefix_fuel, hk, htake, hdrop, hne, if_true]
      rw [ih pre (by omega), hpre_take, basename_of_no_slash pre hpre_slash]
      conv_rhs => rw [hname]
      exact (takeWhile_append_stop _ pre post '.' (by simp)).symm
    · simp only [prefix_fuel, strrchr_of_not_mem '.' _ hdot]
      exact (takeWhile_all _ _ (fun x hx => by
        have : x ≠ '.' := fun hxe => hdot (hxe ▸ hx)
        simpa using this)).symm

theorem prefix_path_eq (fmax : Nat) (path : CStr) :
    prefix_path fmax path = (basename (path.take fmax)).takeWhile (fun c => c != '.') :=
  prefix_fuel_eq fmax path.length path (Nat.le_refl _)

theorem prefix_path_fixed (fmax : Nat) (path : CStr) :
    prefix_path fmax (prefix_path fmax path) = prefix_path fmax path := by
  have hdot : ∀ x ∈ prefix_path fmax path, (fun c => c != '.') x = true := by
    rw [prefix_path_eq]
    exact mem_takeWhile_holds _ _
  have hslash : '/' ∉ prefix_path fmax path := by
    rw [prefix_path_eq]
    intro hmem
    exact basename_no_slash (path.take fmax) (List.takeWhile_subset _ hmem)
  have hlen : (prefix_path fmax path).length ≤ fmax := by
    rw [prefix_path_eq]
    exact ((List.takeWhile_prefix _).length_le).trans ((basename_length_le _).trans (by simp))
  rw [prefix_path_eq fmax (prefix_path fmax path), List.take_of_length_le hlen,
    basename_of_no_slash _ hslash]
  exact takeWhile_all _ _ hdot

/-- C11: with `FILENAME_MAX` at least 15, `prefix` maps `sample.fastq.gz`
to `sample`, `sample.fastq` to `sample` and `sample` to `sample`; and for
every `FILENAME_MAX` and every path, `prefix(prefix(p)) = prefix(p)`. -/
theorem suffix_stripping_examples_and_idempotence (fmax : Nat) (hmax : 15 ≤ fmax) :
    prefix_path fmax "sample.fastq.gz".toList = "sample".toList ∧
    prefix_path fmax "sample.fastq".toList = "sample".toList ∧
    prefix_path fmax "sample".toList = "sample".toList ∧
    ∀ path : CStr, prefix_path fmax (prefix_path fmax path) = prefix_path fmax path := by
  refine ⟨?_, ?_, ?_, prefix_path_fixed fmax⟩
  · rw [prefix_path_eq, List.take_of_length_le (by simpa using hmax)]
    rfl
  · rw [prefix_path_eq, List.take_of_length_le (by simp; omega)]
    rfl
  · rw [prefix_path_eq, List.take_of_length_le (by simp; omega)]
    rfl

/-- Witness for C11: `FILENAME_MAX` 4096; the path `/data/run1/sample.fastq.gz`
gives `sample`, and stripping again changes nothing. -/
theorem suffix_stripping_examples_and_idempotence_witness :
    prefix_path 4096 "sample.fastq.gz".toList = "sample".toList ∧
    prefix_path 4096 (prefix_path 4096 "/data/run1/sample.fastq.gz".toList)
      = "sample".toList :=
  ⟨(suffix_stripping_examples_and_idempotence 4096 (by decide)).1,
   ((suffix_stripping_examples_and_idempotence 4096 (by decide)).2.2.2
      "/data/run1/sample.fastq.gz".toList).trans rfl⟩

/-- What `prefix` computes: for every path the result is the base name (the
part after the last `/` of the first `FILENAME_MAX` bytes) up to its first
`.`; it contains no `.`; the recursion ends within `path.length` levels,
more fuel leaving the result the same. -/
theorem suffix_stripping_removes_every_dot_suffix (fmax : Nat) (path : CStr) :
    prefix_path fmax path = (basename (path.take fmax)).takeWhile (fun c => c != '.') ∧
    '.' ∉ prefix_path fmax path ∧
    (∀ fuel, path.length ≤ fuel → prefix_fuel fmax fuel path = prefix_path fmax path) := by
  refine ⟨prefix_path_eq fmax path, ?_, ?_⟩
  · rw [prefix_path_eq]
    intro hmem
    have := mem_takeWhile_holds (fun c => c != '.') _ '.' hmem
    simp at this
  · intro fuel hfuel
    rw [prefix_fuel_eq fmax fuel path hfuel, prefix_path_eq]

/-- C12 (defect): `strrchr` returns the suffix with its dot, so the test
`strcmp(suffix, "gz")` of line 97 is non-zero for every suffix and the
branch of line 102 is never taken: `prefix` strips every dot suffix. The
part `.v2` is not kept: `sample.v2.fastq.gz` and `sample.v2.fastq` both
yield `sample`, not `sample.v2`, and `sample.v1.fastq.gz` yields the same
prefix as `sample.v2.fastq.gz`. -/
theorem unrecognized_suffix_is_not_kept :
    (∀ post : CStr, strcmp_ne ('.' :: post) "gz".toList = true) ∧
    prefix_path 4096 "sample.v2.fastq.gz".toList = "sample".toList ∧
    prefix_path 4096 "sample.v2.fastq.gz".toList ≠ "sample.v2".toList ∧
    prefix_path 4096 "sample.v2.fastq".toList = "sample".toList ∧
    prefix_path 4096 "sample.v1.fastq.gz".toList =
      prefix_path 4096 "sample.v2.fastq.gz".toList :=
  ⟨fun post => by simp [strcmp_ne], by decide, by decide, by decide, by decide⟩

/-! ## str_split -/

theorem str_split_scan_fst (a_delim : Char) (s : CStr) (pos count : Nat) (last : Option Nat) :
    (str_split_scan a_delim s pos count last).1 = count + s.count a_delim := by
  induction s generalizing pos count last with
  | nil => simp [str_split_scan]
  | cons c s ih =>
    by_cases h : a_delim = c
    · subst h
      simp only [str_split_scan, if_true, ih, List.count_cons_self]
      omega
    · have hc : (c == a_delim) = false := by
        simpa using fun hh => h hh.symm
      simp only [str_split_scan, h, if_false, ih, List.count_cons, hc]
      simp

theorem str_split_scan_snd (a_delim : Char) (init : CStr) (c : Char) (hc : c ≠ a_delim)
    (pos count : Nat) (last : Option Nat) :
    (str_split_scan a_delim (init ++ [c]) pos count last).2 = last ∨
      ∃ k, (str_split_scan a_delim (init ++ [c]) pos count last).2 = some k ∧
        k + 1 < pos + (init ++ [c]).length := by
  induction init generalizing pos count last with
  | nil =>
    left
    simp [str_split_scan, Ne.symm hc]
  | cons x init ih =>
    by_cases h : a_delim = x
    · right
      subst h
      simp only [List.cons_append, str_split_scan, if_true]
      rcases ih (pos + 1) (count + 1) (some pos) with h1 | ⟨k, h1, h2⟩
      · exact ⟨pos, h1, by simp⟩
      · exact ⟨k, h1, by simp only [List.length_cons] at *; omega⟩
    · simp only [List.cons_append, str_split_scan, h, if_false]
      rcases ih (pos + 1) count last with h1 | ⟨k, h1, h2⟩
      · exact Or.inl h1
      · exact Or.inr ⟨k, h1, by simp only [List.length_cons] at *; omega⟩

theorem str_split_tail_eq_one (a_delim : Char) (init : CStr) (c : Char) (hc : c ≠ a_delim) :
    str_split_tail (init ++ [c]) (str_split_scan a_delim (init ++ [c]) 0 0 none).2 = 1 := by
  rcases str_split_scan_snd a_delim init c hc 0 0 none with h | ⟨k, h, hk⟩
  · rw [h]
    rfl
  · rw [h]
    simp only [str_split_tail]
    rw [if_pos (by omega)]

theorem join_fields_count (delim : Char) (fields : List CStr)
    (hwf : well_formed_fields delim fields) :
    (join_fields delim fields).count delim + 1 = fields.length := by
  obtain ⟨hne, hall⟩ := hwf
  induction fields with
  | nil => exact absurd rfl hne
  | cons f rest ih =>
    have hf : f.count delim = 0 := List.count_eq_zero.mpr (hall f (by simp)).2
    cases rest with
    | nil => simp [join_fields, hf]
    | cons g rest =>
      have := ih (by simp) (fun x hx => hall x (by simp [hx]))
      simp only [join_fields, List.count_append, List.count_cons_self, hf, List.length_cons] at *
      omega

theorem join_fields_last (delim : Char) (fields : List CStr)
    (hwf : well_formed_fields delim fields) :
    ∃ init c, join_fields delim fields = init ++ [c] ∧ c ≠ delim := by
  obtain ⟨hne, hall⟩ := hwf
  induction fields with
  | nil => exact absurd rfl hne
  | cons f rest ih =>
    cases rest with
    | nil =>
      obtain ⟨hfne, hfd⟩ := hall f (by simp)
      rcases List.eq_nil_or_concat f with h | ⟨init, c, h⟩
      · exact absurd h hfne
      · refine ⟨init, c, by simp [join_fields, h], ?_⟩
        intro hc
        exact hfd (by rw [h, hc]; simp)
    | cons g rest =>
      obtain ⟨init, c, h, hc⟩ := ih (by simp) (fun x hx => hall x (by simp [hx]))
      exact ⟨f ++ delim :: init, c, by simp [join_fields, h], hc⟩

theorem strtok_tokens_run (delim : Char) (field rest token : CStr) (h : delim ∉ field) :
    strtok_tokens delim (field ++ rest) token = strtok_tokens delim rest (token ++ field) := by
  induction field generalizing token with
  | nil => simp
  | cons c field ih =>
    have hc : c ≠ delim := fun hc => h (by simp [hc])
    have hrest : delim ∉ field := fun hm => h (by simp [hm])
    have := ih (token ++ [c]) hrest
    simp only [List.append_assoc, List.singleton_append] at this
    simp only [List.cons_append, strtok_tokens, hc, if_false]
    exact this

theorem strtok_tokens_join (delim : Char) (fields : List CStr)
    (hwf : well_formed_fields delim fields) :
    strtok_tokens delim (join_fields delim fields) [] = fields := by
  obtain ⟨hne, hall⟩ := hwf
  induction fields with
  | nil => exact absurd rfl hne
  | cons f rest ih =>
    obtain ⟨hfne, hfd⟩ := hall f (by simp)
    cases rest with
    | nil =>
      have := strtok_tokens_run delim f [] [] hfd
      simp only [List.append_nil, List.nil_append] at this
      simp [join_fields, this, strtok_tokens, hfne]
    | cons g rest =>
      have ih' := ih (by simp) (fun x hx => hall x (by simp [hx]))
      simp only [join_fields]
      rw [strtok_tokens_run delim f _ [] hfd]
      simp only [List.nil_append, strtok_tokens, if_true, hfne, if_false]
      rw [ih']

theorem str_split_fill_ok (fmax count : Nat) (tokens : List CStr) (idx : Nat)
    (h : idx + tokens.length ≤ count) :
    str_split_fill fmax count tokens idx = some (tokens.map (fun t => strndup t fmax)) := by
  induction tokens generalizing idx with
  | nil => rfl
  | cons t tokens ih =>
    simp only [List.length_cons] at h
    have hlt : idx < count := by omega
    simp [str_split_fill, hlt, ih (idx + 1) (by omega)]

theorem str_split_join (fmax : Nat) (delim : Char) (fields : List CStr)
    (hwf : well_formed_fields delim fields) :
    str_split fmax (join_fields delim fields) delim =
      some (fields.map (fun f => some (f.take fmax)) ++ [none, none], fields.length) := by
  obtain ⟨init, c, hjoin, hc⟩ := join_fields_last delim fields hwf
  have hcount := join_fields_count delim fields hwf
  have hfst := str_split_scan_fst delim (join_fields delim fields) 0 0 none
  have htail := str_split_tail_eq_one delim init c hc
  rw [← hjoin] at htail
  have htok := strtok_tokens_join delim fields hwf
  simp only [Nat.zero_add] at hfst
  have hfill := str_split_fill_ok fmax (fields.length + 1) fields 0 (by omega)
  unfold str_split
  generalize hscan : str_split_scan delim (join_fields delim fields) 0 0 none = sc at *
  obtain ⟨cnt, last⟩ := sc
  simp only at hfst htail
  have hcnt : cnt + str_split_tail (join_fields delim fields) last = fields.length := by
    rw [htail, hfst]; exact hcount
  simp only [hcnt, htok, hfill, List.length_map, Nat.add_sub_cancel, if_true]
  have hrep : fields.length + 1 + 1 - fields.length = 2 := by omega
  simp only [hrep, strndup, List.replicate, List.map_map]
  rfl

/-- C19, as amended: for every string made of one or more non-empty fields
separated by single occurrences of the delimiter, `str_split` returns (no
assertion failing) the array of those fields in order, each cut to its first
`FILENAME_MAX` bytes by `strndup`, followed by a null terminator (and the
one further zeroed slot of the `calloc`), and stores the number of fields in
`count_res`; when no field is longer than `FILENAME_MAX` the array holds
exactly the fields. -/
theorem str_split_returns_fields_cut_to_filename_max (fmax : Nat) (delim : Char)
    (fields : List CStr) (hwf : well_formed_fields delim fields) :
    str_split fmax (join_fields delim fields) delim =
      some (fields.map (fun f => some (f.take fmax)) ++ [none, none], fields.length) ∧
    ((∀ f ∈ fields, f.length ≤ fmax) →
      str_split fmax (join_fields delim fields) delim =
        some (fields.map some ++ [none, none], fields.length)) := by
  refine ⟨str_split_join fmax delim fields hwf, ?_⟩
  intro hshort
  rw [str_split_join fmax delim fields hwf]
  have hmap : fields.map (fun f => some (f.take fmax)) = fields.map some :=
    List.map_congr_left (fun f hf => by rw [List.take_of_length_le (hshort f hf)])
  rw [hmap]

/-- Witness for C19, as amended: `AAAA,CCCC:GG` split at `,` gives the two
fields `AAAA` and `CCCC:GG` and `count_res = 2`. -/
theorem str_split_returns_fields_cut_to_filename_max_witness :
    str_split 4096 "AAAA,CCCC:GG".toList ',' =
      some ([some "AAAA".toList, some "CCCC:GG".toList, none, none], 2) :=
  (str_split_returns_fields_cut_to_filename_max 4096 ','
    ["AAAA".toList, "CCCC:GG".toList]
    ⟨by simp, fun f hf => by
      simp only [List.mem_cons, List.mem_singleton, List.not_mem_nil, or_false] at hf
      rcases hf with h | h <;> subst h <;> decide⟩).2
    (fun f hf => by
      simp only [List.mem_cons, List.mem_singleton, List.not_mem_nil, or_false] at hf
      rcases hf with h | h <;> subst h <;> decide)

theorem str_split_long_field (fmax n : Nat) (hpos : 0 < n) (hlong : fmax ≤ n) :
    str_split fmax (List.replicate n 'A') ',' =
      some ([some (List.replicate fmax 'A'), none, none], 1) := by
  have hwf : well_formed_fields ',' [List.replicate n 'A'] := by
    refine ⟨by simp, fun f hf => ?_⟩
    simp only [List.mem_singleton] at hf
    subst hf
    refine ⟨fun h => ?_, fun h => ?_⟩
    · have := congrArg List.length h
      simp at this
      omega
    · have := List.eq_of_mem_replicate h
      exact absurd this (by decide)
  have hsplit := str_split_join fmax ',' [List.replicate n 'A'] hwf
  have hjoin : join_fields ',' [List.replicate n 'A'] = List.replicate n 'A' := rfl
  rw [hjoin] at hsplit
  rw [hsplit]
  simp [List.take_replicate, Nat.min_eq_left hlong]

theorem str_split_long_field_ne (fmax n : Nat) (hlong : fmax < n) :
    str_split fmax (List.replicate n 'A') ',' ≠
      some ([some (List.replicate n 'A'), none, none], 1) := by
  rw [str_split_long_field fmax n (by omega) (by omega)]
  intro h
  simp only [Option.some.injEq, Prod.mk.injEq, List.cons.injEq, and_true] at h
  have := congrArg List.length h
  simp at this
  omega

/-- C19, as stated, fails: with `FILENAME_MAX` 4096 the single field of 4097
bytes `AAA...A` is not returned as it is; the array holds its first 4096
bytes. -/
theorem str_split_cuts_a_long_field :
    str_split 4096 (List.replicate 4097 'A') ',' ≠
      some ([some (List.replicate 4097 'A'), none, none], 1) ∧
    str_split 4096 (List.replicate 4097 'A') ',' =
      some ([some (List.replicate 4096 'A'), none, none], 1) :=
  ⟨str_split_long_field_ne 4096 4097 (by decide),
   str_split_long_field 4096 4097 (by decide) (by decide)⟩

/-! ## Round trip of a written record -/

theorem split_at_of_not_mem (c : Char) (a : CStr) (h : c ∉ a) : split_at c a = [a] := by
  induction a with
  | nil => rfl
  | cons x a ih =>
    have hx : x ≠ c := fun hx => h (by simp [hx])
    have ha : c ∉ a := fun hm => h (by simp [hm])
    simp [split_at, hx, ih ha]

theorem split_at_append (c : Char) (a rest : CStr) (h : c ∉ a) :
    split_at c (a ++ c :: rest) = a :: split_at c rest := by
  induction a with
  | nil => simp [split_at]
  | cons x a ih =>
    have hx : x ≠ c := fun hx => h (by simp [hx])
    have ha : c ∉ a := fun hm => h (by simp [hm])
    simp [split_at, hx, ih ha]

theorem dropWhile_append_stop {α : Type} (p : α → Bool) (a b : List α) (x : α)
    (ha : ∀ y ∈ a, p y = true) (hx : p x = false) :
    (a ++ x :: b).dropWhile p = x :: b := by
  induction a with
  | nil => simp [List.dropWhile, hx]
  | cons y a ih =>
    have hy : p y = true := ha y (by simp)
    simp [List.dropWhile, hy, ih (fun z hz => ha z (by simp [hz]))]

theorem ne_space_of_not_mem (c : Char) (a : CStr) (h : c ∉ a) :
    ∀ y ∈ a, (fun d : Char => d != c) y = true := by
  intro y hy
  have : y ≠ c := fun hyc => h (hyc ▸ hy)
  simpa using this

theorem parse_header_build (name comment index : CStr) (h : Header)
    (hname : ' ' ∉ name) (hindex : ' ' ∉ index)
    (hsplit : (split_at ':' index = [h.index1] ∧ h.index2 = none) ∨
      ∃ i2, split_at ':' index = [h.index1, i2] ∧ h.index2 = some i2)
    (hn : h.name = name) (hc : h.comment = if comment = [] then none else some comment) :
    parse_header ('@' :: (name ++ (if comment = [] then [] else ' ' :: comment)
      ++ ' ' :: index)) = some h := by
  obtain ⟨hname', hcomment', hindex1, hindex2⟩ := h
  simp only at hn hc hsplit
  have hrest : name ++ (if comment = [] then [] else ' ' :: comment) ++ ' ' :: index
      = name ++ ' ' :: ((if comment = [] then [] else comment ++ [' ']) ++ index) := by
    by_cases hce : comment = [] <;> simp [hce]
  have htake : (name ++ ' ' :: ((if comment = [] then [] else comment ++ [' ']) ++ index)).takeWhile
      (fun c => c != ' ') = name := by
    rw [takeWhile_append_stop _ _ _ ' ' (by simp)]
    exact takeWhile_all _ _ (ne_space_of_not_mem ' ' name hname)
  have hdrop : (name ++ ' ' :: ((if comment = [] then [] else comment ++ [' ']) ++ index)).dropWhile
      (fun c => c != ' ') = ' ' :: ((if comment = [] then [] else comment ++ [' ']) ++ index) :=
    dropWhile_append_stop _ _ _ ' ' (ne_space_of_not_mem ' ' name hname) (by simp)
  have hidx : (((if comment = [] then [] else comment ++ [' ']) ++ index).reverse.takeWhile
      (fun c => c != ' ')).reverse = index := by
    by_cases hce : comment = []
    · simp only [hce, if_true, List.nil_append]
      rw [takeWhile_all _ _ (fun y hy => ne_space_of_not_mem ' ' index hindex y (by simpa using hy))]
      simp
    · simp only [hce, if_false, List.reverse_append, List.reverse_cons, List.reverse_nil,
        List.nil_append, List.singleton_append, List.append_assoc]
      rw [takeWhile_append_stop _ _ _ ' ' (by simp)]
      rw [takeWhile_all _ _ (fun y hy => ne_space_of_not_mem ' ' index hindex y (by simpa using hy))]
      simp
  have hcom : (if index.length < ((if comment = [] then [] else comment ++ [' ']) ++ index).length
      then some (((if comment = [] then [] else comment ++ [' ']) ++ index).take
        (((if comment = [] then [] else comment ++ [' ']) ++ index).length - index.length - 1))
      else none) = hcomment' := by
    rw [hc]
    by_cases hce : comment = []
    · simp [hce]
    · simp only [hce, if_false, List.length_append, List.length_singleton]
      have hlt : index.length < comment.length + 1 + index.length := by omega
      have hsub : comment.length + 1 + index.length - index.length - 1 = comment.length := by
        omega
      rw [if_pos hlt, hsub]
      simp
  rw [hrest]
  simp only [parse_header, htake, hdrop, List.drop_one, List.tail_cons, hidx, hcom]
  rcases hsplit with ⟨h1, h2⟩ | ⟨i2, h1, h2⟩
  · simp [h1, h2, hn]
  · simp [h1, h2, hn]

theorem spec_record_shape (seq1 seqi : kseq_t) (seqj : Option kseq_t) :
    spec_record seq1 seqi seqj =
      written_header seq1 seqi seqj
      ++ '\n' :: (seq1.seq ++ '\n' :: ("+".toList ++ '\n' :: (seq1.qual ++ '\n' :: []))) := by
  by_cases hc : seq1.comment = [] <;> by_cases hq : seq1.qual = [] <;>
    cases seqj <;> simp [spec_record, written_header, written_index, hc, hq]

theorem text_lines_four (l1 l2 l3 l4 : CStr) (h1 : '\n' ∉ l1) (h2 : '\n' ∉ l2)
    (h3 : '\n' ∉ l3) (h4 : '\n' ∉ l4) :
    text_lines (l1 ++ '\n' :: (l2 ++ '\n' :: (l3 ++ '\n' :: (l4 ++ '\n' :: [])))) =
      [l1, l2, l3, l4] := by
  simp only [text_lines]
  rw [split_at_append _ _ _ h1, split_at_append _ _ _ h2, split_at_append _ _ _ h3,
    split_at_append _ _ _ h4]
  rfl

theorem written_index_clean (c : Char) (hc : c ≠ ':') (seqi : kseq_t) (seqj : Option kseq_t)
    (hi : c ∉ seqi.seq) (hj : ∀ sj, seqj = some sj → c ∉ sj.seq) :
    c ∉ written_index seqi seqj := by
  cases seqj with
  | none => simpa [written_index] using hi
  | some sj =>
    have := hj sj rfl
    simp [written_index, hi, this, hc]

/-- C15: round trip of a written record. When the identifier holds no space
and no newline, the comment, sequence and quality no newline, and the index
sequence(s) no newline, space or `:`, the text written by
`print_indexed_seq` splits at its newlines into exactly four lines: the
header, the primary sequence, `+`, and the primary quality (empty when there
is none); and the header reads back as `@`, the identifier up to the first
space, the comment if present, and after the last space index1, with index2
after `:` when present. -/
theorem written_record_reads_back (seq1 seqi : kseq_t) (seqj : Option kseq_t)
    (hname : ' ' ∉ seq1.name ∧ '\n' ∉ seq1.name)
    (hcomment : '\n' ∉ seq1.comment) (hseq : '\n' ∉ seq1.seq) (hqual : '\n' ∉ seq1.qual)
    (hi : index_clean seqi.seq) (hj : ∀ sj, seqj = some sj → index_clean sj.seq) :
    text_lines (print_indexed_seq [] seq1 seqi seqj) =
      [written_header seq1 seqi seqj, seq1.seq, "+".toList, seq1.qual] ∧
    parse_header (written_header seq1 seqi seqj) = some (spec_header seq1 seqi seqj) := by
  refine ⟨?_, ?_⟩
  · rw [print_indexed_seq_eq, List.nil_append, spec_record_shape]
    apply text_lines_four
    · have hidx := written_index_clean '\n' (by decide) seqi seqj hi.1 (fun sj h => (hj sj h).1)
      by_cases hc : seq1.comment = []
      · simp [written_header, hc, hname.2, hidx]
      · simp [written_header, hc, hname.2, hidx, hcomment]
    · exact hseq
    · decide
    · exact hqual
  · apply parse_header_build
    · exact hname.1
    · exact written_index_clean ' ' (by decide) seqi seqj hi.2.1 (fun sj h => (hj sj h).2.1)
    · cases seqj with
      | none =>
        left
        exact ⟨by simpa [spec_header, written_index] using
          split_at_of_not_mem ':' _ hi.2.2, rfl⟩
      | some sj =>
        right
        refine ⟨sj.seq, ?_, rfl⟩
        simp only [spec_header, written_index]
        rw [split_at_append ':' _ _ hi.2.2, split_at_of_not_mem ':' _ (hj sj rfl).2.2]
    · rfl
    · rfl

/-- Witness for C15: record `R1` with comment `1:N:0 x`, index1 `AAAACGT` and
index2 `TTGG`. -/
theorem written_record_reads_back_witness :
    text_lines (print_indexed_seq []
        { name := "R1".toList, comment := "1:N:0 x".toList, seq := "ACGT".toList,
          qual := "####".toList }
        scenario_seqi (some { scenario_seqi with seq := "TTGG".toList })) =
      ["@R1 1:N:0 x AAAACGT:TTGG".toList, "ACGT".toList, "+".toList, "####".toList] ∧
    parse_header "@R1 1:N:0 x AAAACGT:TTGG".toList =
      some { name := "R1".toList, comment := some "1:N:0 x".toList,
             index1 := "AAAACGT".toList, index2 := some "TTGG".toList } :=
  written_record_reads_back
    { name := "R1".toList, comment := "1:N:0 x".toList, seq := "ACGT".toList,
      qual := "####".toList }
    scenario_seqi (some { scenario_seqi with seq := "TTGG".toList })
    ⟨by decide, by decide⟩ (by decide) (by decide) (by decide)
    (by unfold index_clean; decide)
    (fun sj h => by cases h; unfold index_clean; decide)

/-! ## The loop invariant on the destinations -/

theorem append_text_nil (file : Option FILE) : append_text [] file = file := by
  cases file <;> simp [append_text]

theorem append_text_append (a b : CStr) (file : Option FILE) :
    append_text b (append_text a file) = append_text (a ++ b) file := by
  cases file <;> simp [append_text]

theorem main_classify_lt (fmax : Nat) (no_other : Bool) (barcodes : List Barcode)
    (seqi : kseq_t) (seqj : Option kseq_t) (j : Nat)
    (h : main_classify fmax no_other (main_table no_other barcodes) seqi seqj = some j) :
    j < (main_table no_other barcodes).length := by
  have hle := main_scan_le (main_test fmax seqi seqj) (main_table no_other barcodes) 0
  simp only [main_classify, main_find_eq_scan] at h
  split at h
  · cases no_other
    · simp only [if_true, Option.some.injEq] at h
      have : (main_table false barcodes).length = barcodes.length + 1 := by simp [main_table]
      omega
    · simp at h
  · simp only [Option.some.injEq] at h
    omega

theorem main_check_names_ok (stderr : CStr) (seq1 seqi : kseq_t) (seq2 : Option kseq_t)
    (h : seq2 = none → main_name_mismatch seq1 seqi none = false) :
    ∃ err, main_check_names stderr seq1 seqi seq2 = some err := by
  cases seq2 with
  | none => exact ⟨stderr, by simp [main_check_names, h rfl]⟩
  | some s2 =>
    by_cases hm : main_name_mismatch seq1 seqi (some s2) = true
    · exact ⟨_, by simp only [main_check_names, hm, if_true]; rfl⟩
    · exact ⟨stderr, by simp [main_check_names, hm]⟩

theorem getElem?_set_map_append (files : List (Option FILE)) (j i : Nat) (f : FILE) (txt : CStr)
    (hj : files[j]? = some (some f)) :
    (files.set j (some { f with text := f.text ++ txt }))[i]? =
      (files[i]?).map (append_text (if some j = some i then txt else [])) := by
  have hlt : j < files.length := by
    rcases Nat.lt_or_ge j files.length with h | h
    · exact h
    · rw [List.getElem?_eq_none h] at hj
      cases hj
  by_cases hij : j = i
  · subst hij
    simp [hlt, hj, append_text]
  · have hne : ¬ (some j = some i) := fun h => hij (Option.some.inj h)
    rw [List.getElem?_set_ne hij, if_neg hne]
    cases h : files[i]? with
    | none => rfl
    | some x => simp [append_text_nil]

theorem map_append_text_nil (x : Option (Option FILE)) : x.map (append_text []) = x := by
  cases x with
  | none => rfl
  | some y => simp [append_text_nil]

theorem main_body_step (fmax : Nat) (no_other : Bool) (barcodes : List Barcode) (o : Outputs)
    (t : Tuple)
    (h1 : all_open (main_table no_other barcodes).length o.barcode_files1)
    (h2 : t.seq2 ≠ none → all_open (main_table no_other barcodes).length o.barcode_files2)
    (hn : t.seq2 = none → main_name_mismatch t.seq1 t.seqi none = false) :
    ∃ o1, main_body fmax no_other (main_table no_other barcodes) o t.seq1 t.seqi t.seq2 t.seqj
        = some o1 ∧
      ∀ i,
        o1.barcode_files1[i]? = (o.barcode_files1[i]?).map (append_text
          (if main_classify fmax no_other (main_table no_other barcodes) t.seqi t.seqj = some i
            then record1 t else [])) ∧
        o1.barcode_files2[i]? = (o.barcode_files2[i]?).map (append_text
          (if main_classify fmax no_other (main_table no_other barcodes) t.seqi t.seqj = some i
            then record2 t else [])) := by
  obtain ⟨err, herr⟩ := main_check_names_ok o.stderr t.seq1 t.seqi t.seq2 hn
  simp only [main_body, herr, main_route]
  cases hcl : main_classify fmax no_other (main_table no_other barcodes) t.seqi t.seqj with
  | none =>
    refine ⟨_, rfl, fun i => ?_⟩
    simp [map_append_text_nil]
  | some j =>
    have hj := main_classify_lt fmax no_other barcodes t.seqi t.seqj j hcl
    obtain ⟨f1, hf1⟩ := h1 j hj
    have hp1 := main_print_of_open o.barcode_files1 j f1 t.seq1 t.seqi t.seqj hf1
    rw [print_indexed_seq_eq] at hp1
    simp only [main_write, hp1]
    cases hs2 : t.seq2 with
    | none =>
      refine ⟨_, rfl, fun i => ⟨?_, ?_⟩⟩
      · exact getElem?_set_map_append o.barcode_files1 j i f1 _ hf1
      · simp [record2, hs2, map_append_text_nil]
    | some s2 =>
      obtain ⟨f2, hf2⟩ := h2 (by simp [hs2]) j hj
      have hp2 := main_print_of_open o.barcode_files2 j f2 s2 t.seqi t.seqj hf2
      rw [print_indexed_seq_eq] at hp2
      simp only [hp2]
      refine ⟨_, rfl, fun i => ⟨?_, ?_⟩⟩
      · exact getElem?_set_map_append o.barcode_files1 j i f1 _ hf1
      · have := getElem?_set_map_append o.barcode_files2 j i f2
          (spec_record s2 t.seqi t.seqj) hf2
        simpa [record2, hs2] using this

theorem all_open_after (n : Nat) (files files' : List (Option FILE)) (txt : Nat → CStr)
    (h : all_open n files) (hstep : ∀ i, files'[i]? = (files[i]?).map (append_text (txt i))) :
    all_open n files' := by
  intro i hi
  obtain ⟨f, hf⟩ := h i hi
  exact ⟨{ f with text := f.text ++ txt i }, by rw [hstep i, hf]; rfl⟩

theorem routed_to_cons (fmax : Nat) (no_other : Bool) (table : List Barcode) (i : Nat)
    (t : Tuple) (ts : List Tuple) (rec : Tuple → CStr) :
    concat_texts ((routed_to fmax no_other table i (t :: ts)).map rec) =
      (if main_classify fmax no_other table t.seqi t.seqj = some i then rec t else []) ++
        concat_texts ((routed_to fmax no_other table i ts).map rec) := by
  by_cases h : main_classify fmax no_other table t.seqi t.seqj = some i
  · have hb : (main_classify fmax no_other table t.seqi t.seqj == some i) = true := by
      simpa using h
    simp [routed_to, List.filter_cons, hb, concat_texts, h]
  · have hb : (main_classify fmax no_other table t.seqi t.seqj == some i) = false := by
      simpa using h
    simp [routed_to, List.filter_cons, hb, h]

theorem main_bodies_texts (fmax : Nat) (no_other : Bool) (barcodes : List Barcode)
    (ts : List Tuple) (o : Outputs)
    (h1 : all_open (main_table no_other barcodes).length o.barcode_files1)
    (h2 : (∃ t ∈ ts, t.seq2 ≠ none) →
      all_open (main_table no_other barcodes).length o.barcode_files2)
    (hn : ∀ t ∈ ts, t.seq2 = none → main_name_mismatch t.seq1 t.seqi none = false) :
    ∃ o', main_bodies fmax no_other (main_table no_other barcodes) ts o = some o' ∧
      ∀ i,
        o'.barcode_files1[i]? = (o.barcode_files1[i]?).map (append_text (concat_texts
          ((routed_to fmax no_other (main_table no_other barcodes) i ts).map record1))) ∧
        o'.barcode_files2[i]? = (o.barcode_files2[i]?).map (append_text (concat_texts
          ((routed_to fmax no_other (main_table no_other barcodes) i ts).map record2))) := by
  induction ts generalizing o with
  | nil =>
    refine ⟨o, rfl, fun i => ?_⟩
    simp [routed_to, concat_texts, map_append_text_nil]
  | cons t ts ih =>
    obtain ⟨o1, hbody, hstep⟩ := main_body_step fmax no_other barcodes o t h1
      (fun hs => h2 ⟨t, by simp, hs⟩) (hn t (by simp))
    have h1' := all_open_after _ _ _ _ h1 (fun i => (hstep i).1)
    have h2' : (∃ t' ∈ ts, t'.seq2 ≠ none) →
        all_open (main_table no_other barcodes).length o1.barcode_files2 := by
      rintro ⟨t', ht', hs⟩
      exact all_open_after _ _ _ _ (h2 ⟨t', by simp [ht'], hs⟩) (fun i => (hstep i).2)
    obtain ⟨o', hrest, hfinal⟩ := ih o1 h1' h2' (fun t' ht' => hn t' (by simp [ht']))
    refine ⟨o', by simp [main_bodies, hbody, hrest], fun i => ?_⟩
    rw [(hfinal i).1, (hfinal i).2, (hstep i).1, (hstep i).2, routed_to_cons, routed_to_cons]
    constructor
    · cases o.barcode_files1[i]? with
      | none => rfl
      | some x => simp [append_text_append]
    · cases o.barcode_files2[i]? with
      | none => rfl
      | some x => simp [append_text_append]

theorem routed_to_length_cons (fmax : Nat) (no_other : Bool) (table : List Barcode) (i : Nat)
    (t : Tuple) (ts : List Tuple) :
    (routed_to fmax no_other table i (t :: ts)).length =
      (if main_classify fmax no_other table t.seqi t.seqj = some i then 1 else 0) +
        (routed_to fmax no_other table i ts).length := by
  by_cases h : main_classify fmax no_other table t.seqi t.seqj = some i
  · have hb : (main_classify fmax no_other table t.seqi t.seqj == some i) = true := by
      simpa using h
    simp [routed_to, List.filter_cons, hb, h]
    omega
  · have hb : (main_classify fmax no_other table t.seqi t.seqj == some i) = false := by
      simpa using h
    simp [routed_to, List.filter_cons, hb, h]

theorem routed_to_count (fmax : Nat) (no_other : Bool) (barcodes : List Barcode)
    (ts : List Tuple) :
    Finset.sum (Finset.range (main_table no_other barcodes).length)
        (fun i => (routed_to fmax no_other (main_table no_other barcodes) i ts).length) =
      (ts.filter (fun t =>
        (main_classify fmax no_other (main_table no_other barcodes) t.seqi t.seqj).isSome)).length := by
  induction ts with
  | nil => simp [routed_to]
  | cons t ts ih =>
    simp only [routed_to_length_cons, Finset.sum_add_distrib, ih, List.filter_cons]
    cases hcl : main_classify fmax no_other (main_table no_other barcodes) t.seqi t.seqj with
    | none => simp
    | some j =>
      have hj := main_classify_lt fmax no_other barcodes t.seqi t.seqj j hcl
      simp only [Option.some.injEq, Finset.sum_ite_eq, Finset.mem_range, hj, if_true,
        Option.isSome_some, List.length_cons]
      omega

theorem main_classify_catch_all (fmax : Nat) (table : List Barcode) (seqi : kseq_t)
    (seqj : Option kseq_t) : (main_classify fmax false table seqi seqj).isSome = true := by
  simp only [main_classify]
  split <;> simp

theorem main_tuples_seq2 (fq1 fqi : List kseq_t) (fq2 fqj : Option (List kseq_t)) (t : Tuple)
    (ht : t ∈ main_tuples fq1 fqi fq2 fqj) :
    (fq2 = none → t.seq2 = none) ∧ (fq2 ≠ none → ∃ r, t.seq2 = some r) := by
  obtain ⟨k, hk⟩ := List.mem_iff_getElem?.mp ht
  have h := (main_tuples_getElem? fq1 fqi fq2 fqj k t hk).2.2.1
  cases fq2 with
  | none =>
    simp only [stream_record_at] at h
    exact ⟨fun _ => h, fun hne => absurd rfl hne⟩
  | some s =>
    simp only [stream_record_at] at h
    obtain ⟨r, h1, hr⟩ := h
    exact ⟨fun hs => (by cases hs), fun _ => ⟨r, hr⟩⟩

/-! ## Conservation, order and pairing -/

/-- C17: conservation and order. From open set-1 destinations (and open
set-2 destinations when a second primary stream is configured; without one,
the identifiers of every tuple agreeing), the loop ends normally, and every
set-1 destination `i` then holds what it held followed by the records of
exactly the tuples classified to `i`, in the order of the tuples in the
input. Summed over the destinations, the number of these records is the
number of tuples that are classified to an entry, which with the catch-all
is the number of tuples processed. -/
theorem every_tuple_is_written_once_in_order (fmax : Nat) (no_other : Bool)
    (barcodes : List Barcode) (fq1 fqi : List kseq_t) (fq2 fqj : Option (List kseq_t))
    (o : Outputs)
    (h1 : all_open (main_table no_other barcodes).length o.barcode_files1)
    (h2 : fq2 ≠ none → all_open (main_table no_other barcodes).length o.barcode_files2)
    (hn : fq2 = none → ∀ t ∈ main_tuples fq1 fqi fq2 fqj,
      main_name_mismatch t.seq1 t.seqi none = false) :
    ∃ o', main_loop fmax no_other (main_table no_other barcodes) fq1 fqi fq2 fqj o = some o' ∧
      (∀ (i : Nat) (f : FILE), o.barcode_files1[i]? = some (some f) →
        o'.barcode_files1[i]? = some (some { f with text := (f.text ++ concat_texts
          ((routed_to fmax no_other (main_table no_other barcodes) i
            (main_tuples fq1 fqi fq2 fqj)).map record1)) })) ∧
      (∀ i : Nat, (routed_to fmax no_other (main_table no_other barcodes) i
        (main_tuples fq1 fqi fq2 fqj)).Sublist (main_tuples fq1 fqi fq2 fqj)) ∧
      Finset.sum (Finset.range (main_table no_other barcodes).length)
          (fun i => (routed_to fmax no_other (main_table no_other barcodes) i
            (main_tuples fq1 fqi fq2 fqj)).length) =
        ((main_tuples fq1 fqi fq2 fqj).filter (fun t =>
          (main_classify fmax no_other (main_table no_other barcodes) t.seqi t.seqj).isSome)).length ∧
      (no_other = false →
        Finset.sum (Finset.range (main_table no_other barcodes).length)
          (fun i => (routed_to fmax no_other (main_table no_other barcodes) i
            (main_tuples fq1 fqi fq2 fqj)).length) = (main_tuples fq1 fqi fq2 fqj).length) := by
  obtain ⟨o', hloop, htexts⟩ := main_bodies_texts fmax no_other barcodes
    (main_tuples fq1 fqi fq2 fqj) o h1
    (fun ⟨t, ht, hs⟩ => h2 (fun hnone => hs ((main_tuples_seq2 fq1 fqi fq2 fqj t ht).1 hnone)))
    (fun t ht hs => by
      have hfq2 : fq2 = none := by
        by_contra hne
        obtain ⟨r, hr⟩ := (main_tuples_seq2 fq1 fqi fq2 fqj t ht).2 hne
        rw [hr] at hs
        cases hs
      exact hn hfq2 t ht)
  refine ⟨o', by rw [main_loop_eq_bodies]; exact hloop, ?_, ?_,
    routed_to_count fmax no_other barcodes _, ?_⟩
  · intro i f hf
    rw [(htexts i).1, hf]
    rfl
  · intro i
    simp [routed_to]
  · intro hno
    subst hno
    rw [routed_to_count]
    congr 1
    exact List.filter_eq_self.mpr (fun t _ => main_classify_catch_all fmax _ t.seqi t.seqj)

/-- Witness for C17: three tuples with index1 `AAAACGT`, `TTTTCGT`, `AAAATTT`
against `GGGG`, `AAAA`, `AAAAC` with the catch-all: destination 1 (`AAAA`)
holds the first and the third record in that order, the catch-all
destination the second, and the destinations hold three records in all. -/
theorem every_tuple_is_written_once_in_order_witness :
    ∃ o', main_loop 4096 false (main_table false scenario_overlap) scenario_reads
        scenario_indexes none none scenario_outputs = some o' ∧
      o'.barcode_files1[1]? = some (some
        { name := "s_AAAA.fastq".toList
          text := "@R1 AAAACGT\nACGT\n+\n####\n@R1 AAAATTT\nGGGG\n+\n####\n".toList }) ∧
      o'.barcode_files1[3]? = some (some
        { name := "s_OTHER:OTHER.fastq".toList
          text := "@R1 TTTTCGT\nCCCC\n+\n####\n".toList }) ∧
      Finset.sum (Finset.range (main_table false scenario_overlap).length)
          (fun i => (routed_to 4096 false (main_table false scenario_overlap) i
            (main_tuples scenario_reads scenario_indexes none none)).length) = 3 :=
  (every_tuple_is_written_once_in_order 4096 false scenario_overlap scenario_reads
    scenario_indexes none none scenario_outputs
    (fun i hi => by
      have hi' : i < 4 := hi
      interval_cases i <;> exact ⟨_, rfl⟩)
    (fun h => absurd rfl h)
    (fun _ => by decide)).imp
    (fun _ h => ⟨h.1, (h.2.1 1 _ rfl).trans rfl, (h.2.1 3 _ rfl).trans rfl,
      (h.2.2.2.2 rfl).trans rfl⟩)

/-- C18: paired outputs stay parallel. With a second primary stream and both
destination sets open, the loop ends normally and, for every entry `i`, the
set-1 and the set-2 destination then hold what they held followed by one
record for each tuple classified to `i`, in input order: the `k`-th of them
is the primary1 record in set 1 and the primary2 record in set 2 of the same
tuple, each written with that tuple's index sequence(s). -/
theorem paired_destinations_stay_parallel (fmax : Nat) (no_other : Bool)
    (barcodes : List Barcode) (fq1 fqi fq2 : List kseq_t) (fqj : Option (List kseq_t))
    (o : Outputs)
    (h1 : all_open (main_table no_other barcodes).length o.barcode_files1)
    (h2 : all_open (main_table no_other barcodes).length o.barcode_files2) :
    ∃ o', main_loop fmax no_other (main_table no_other barcodes) fq1 fqi (some fq2) fqj o
        = some o' ∧
      ∀ (i : Nat) (f1 f2 : FILE), o.barcode_files1[i]? = some (some f1) → o.barcode_files2[i]? = some (some f2) →
        o'.barcode_files1[i]? = some (some { f1 with text := (f1.text ++ concat_texts
          ((routed_to fmax no_other (main_table no_other barcodes) i
            (main_tuples fq1 fqi (some fq2) fqj)).map record1)) }) ∧
        o'.barcode_files2[i]? = some (some { f2 with text := (f2.text ++ concat_texts
          ((routed_to fmax no_other (main_table no_other barcodes) i
            (main_tuples fq1 fqi (some fq2) fqj)).map record2)) }) ∧
        ((routed_to fmax no_other (main_table no_other barcodes) i
            (main_tuples fq1 fqi (some fq2) fqj)).map record1).length =
          ((routed_to fmax no_other (main_table no_other barcodes) i
            (main_tuples fq1 fqi (some fq2) fqj)).map record2).length ∧
        ∀ (k : Nat) (t : Tuple), (routed_to fmax no_other (main_table no_other barcodes) i
            (main_tuples fq1 fqi (some fq2) fqj))[k]? = some t →
          ∃ r2, t.seq2 = some r2 ∧
            ((routed_to fmax no_other (main_table no_other barcodes) i
              (main_tuples fq1 fqi (some fq2) fqj)).map record1)[k]? =
                some (spec_record t.seq1 t.seqi t.seqj) ∧
            ((routed_to fmax no_other (main_table no_other barcodes) i
              (main_tuples fq1 fqi (some fq2) fqj)).map record2)[k]? =
                some (spec_record r2 t.seqi t.seqj) := by
  have hsome : ∀ t ∈ main_tuples fq1 fqi (some fq2) fqj, ∃ r, t.seq2 = some r :=
    fun t ht => (main_tuples_seq2 fq1 fqi (some fq2) fqj t ht).2 (by simp)
  obtain ⟨o', hloop, htexts⟩ := main_bodies_texts fmax no_other barcodes
    (main_tuples fq1 fqi (some fq2) fqj) o h1 (fun _ => h2)
    (fun t ht hs => by
      obtain ⟨r, hr⟩ := hsome t ht
      rw [hr] at hs
      cases hs)
  refine ⟨o', by rw [main_loop_eq_bodies]; exact hloop, ?_⟩
  intro i f1 f2 hf1 hf2
  refine ⟨by rw [(htexts i).1, hf1]; rfl, by rw [(htexts i).2, hf2]; rfl, by simp, ?_⟩
  intro k t hk
  have hmem : t ∈ main_tuples fq1 fqi (some fq2) fqj := by
    have := List.getElem?_mem hk
    simp only [routed_to, List.mem_filter] at this
    exact this.1
  obtain ⟨r2, hr2⟩ := hsome t hmem
  refine ⟨r2, hr2, ?_, ?_⟩
  · simp [List.getElem?_map, hk, record1]
  · simp [List.getElem?_map, hk, record2, hr2]

/-- Witness for C18: the same three tuples with mates `TGCA`, `TTTT`, `AAAA`:
destination 1 holds records one and three of primary1 in set 1 and the mates
of the same two tuples, in the same order, in set 2. -/
theorem paired_destinations_stay_parallel_witness :
    ∃ o', main_loop 4096 false (main_table false scenario_overlap) scenario_reads
        scenario_indexes (some scenario_mates) none scenario_outputs2 = some o' ∧
      o'.barcode_files1[1]? = some (some
        { name := "s_AAAA.fastq".toList
          text := "@R1 AAAACGT\nACGT\n+\n####\n@R1 AAAATTT\nGGGG\n+\n####\n".toList }) ∧
      o'.barcode_files2[1]? = some (some
        { name := "m_AAAA.fastq".toList
          text := "@R1 AAAACGT\nTGCA\n+\n####\n@R1 AAAATTT\nAAAA\n+\n####\n".toList }) :=
  (paired_destinations_stay_parallel 4096 false scenario_overlap scenario_reads
    scenario_indexes scenario_mates none scenario_outputs2
    (fun i hi => by
      have hi' : i < 4 := hi
      interval_cases i <;> exact ⟨_, rfl⟩)
    (fun i hi => by
      have hi' : i < 4 := hi
      interval_cases i <;> exact ⟨_, rfl⟩)).imp
    (fun _ h => ⟨h.1, (h.2 1 _ _ rfl rfl).1.trans rfl, (h.2 1 _ _ rfl rfl).2.1.trans rfl⟩)

/-! ## Tables built from the `-b` option -/

theorem str_split_fill_lengths (fmax count : Nat) (tokens : List CStr) (idx : Nat)
    (result : List CStr) (h : str_split_fill fmax count tokens idx = some result) :
    ∀ x ∈ result, x.length ≤ fmax := by
  induction tokens generalizing idx result with
  | nil =>
    simp only [str_split_fill, Option.some.injEq] at h
    subst h
    intro x hx
    simp at hx
  | cons t tokens ih =>
    simp only [str_split_fill] at h
    split at h
    · cases hrest : str_split_fill fmax count tokens (idx + 1) with
      | none => simp [hrest] at h
      | some r =>
        simp only [hrest, Option.some.injEq] at h
        subst h
        intro x hx
        simp only [List.mem_cons] at hx
        rcases hx with hx | hx
        · subst hx
          simp [strndup]
        · exact ih (idx + 1) r hrest x hx
    · cases h

theorem str_split_lengths (fmax : Nat) (a_str : CStr) (a_delim : Char)
    (result : List (Option CStr)) (n : Nat)
    (h : str_split fmax a_str a_delim = some (result, n)) :
    ∀ x, some x ∈ result → x.length ≤ fmax := by
  unfold str_split at h
  generalize str_split_scan a_delim a_str 0 0 none = sc at h
  obtain ⟨cnt, last⟩ := sc
  simp only at h
  cases hfill : str_split_fill fmax (cnt + str_split_tail a_str last + 1)
      (strtok_tokens a_delim a_str []) 0 with
  | none => simp [hfill] at h
  | some r =>
    simp only [hfill] at h
    split at h
    · simp only [Option.some.injEq, Prod.mk.injEq] at h
      intro x hx
      rw [← h.1] at hx
      simp only [List.mem_append, List.mem_map, Option.some.injEq, exists_eq_right,
        List.mem_replicate] at hx
      rcases hx with hx | hx
      · exact str_split_fill_lengths _ _ _ _ r hfill x hx
      · exact absurd hx.2 (by simp)
    · cases h

theorem main_split_key_fits (fmax : Nat) (barcode : CStr) (h : barcode.length ≤ fmax) :
    key_fits fmax (main_split_key barcode) := by
  by_cases hc : ':' ∈ barcode
  · simp only [main_split_key, hc, if_true, key_fits]
    refine ⟨le_trans (List.takeWhile_prefix _).length_le h, ?_⟩
    intro key2 hk
    simp only [Option.some.injEq] at hk
    subst hk
    have := (List.dropWhile_suffix (fun c => c != ':') (l := barcode)).length_le
    simp only [List.length_drop]
    omega
  · simp only [main_split_key, hc, if_false, key_fits]
    exact ⟨h, fun _ hk => by cases hk⟩

/-- Every key of a table built from a `-b` argument is no longer than
`FILENAME_MAX`, and with `FILENAME_MAX` at least 5 so are the keys of the
catch-all entry: the tables the loop runs over satisfy `key_fits`. -/
theorem main_barcodes_fit (fmax : Nat) (optarg : CStr) (table : List Barcode)
    (no_other : Bool) (h5 : 5 ≤ fmax) (h : main_barcodes fmax optarg = some table) :
    ∀ e ∈ main_table no_other table, key_fits fmax e := by
  have htable : ∀ e ∈ table, key_fits fmax e := by
    unfold main_barcodes at h
    cases hs : str_split fmax optarg ',' with
    | none => simp [hs] at h
    | some p =>
      obtain ⟨barcodes, n⟩ := p
      simp only [hs, Option.some.injEq] at h
      subst h
      intro e he
      simp only [List.mem_map, List.mem_filterMap, id] at he
      obtain ⟨tok, ⟨b, hb, hbt⟩, hte⟩ := he
      subst hte
      subst hbt
      exact main_split_key_fits fmax tok
        (str_split_lengths fmax optarg ',' barcodes n hs tok (List.takeWhile_subset _ hb))
  intro e he
  cases no_other
  · simp only [main_table, Bool.not_false, if_true, List.mem_append, List.mem_singleton] at he
    rcases he with he | he
    · exact htable e he
    · subst he
      refine ⟨by simpa [OTHER] using h5, fun k hk => ?_⟩
      simp only [OTHER, Option.some.injEq] at hk
      subst hk
      simpa using h5
  · exact htable e (by simpa [main_table] using he)

end Demultiplex
